import Mathlib

/-!
Verification development for the SNMP agent subsystem of the
internet-connection-monitor repository (internal/outputs/snmp.go).

The Go source is shallowly embedded: Go strings are Lean `String`s
(manipulated through their character lists), Go `int`/`int64` are `Int`,
Go `uint32` conversions are explicit `% 2 ^ 32` reductions, Go `float64`
arithmetic is modeled as exact rational arithmetic (`ℚ`), Go maps are
association lists (the observable behaviour of every map in this file is
insertion-order independent because all keys are distinct), and `time.Time`
is modeled as `Option Int` (`none` is Go's zero time, `some u` a time with
unix value `u`).
-/

/-- Model of Go `unicode.IsSpace` restricted to the code points that can
appear here (ASCII whitespace plus NEL and NBSP). -/
def isSpaceGo (c : Char) : Bool :=
  c = ' ' ∨ c = '\t' ∨ c = '\n' ∨ c = '\x0b' ∨ c = '\x0c' ∨ c = '\r' ∨
    c = '\x85' ∨ c = '\xa0'

/-- Model of Go `strings.TrimSpace` on the character list of a string. -/
def goTrim (l : List Char) : List Char :=
  ((l.dropWhile isSpaceGo).reverse.dropWhile isSpaceGo).reverse

/-- The trailing-dot stripping loop of `normalizeOID`, operating on the
reversed character list: drop leading dots while more than one character
remains (`for strings.HasSuffix(trimmed, ".") && len(trimmed) > 1`). -/
def dropDotsRev : List Char → List Char
  | [] => []
  | c :: rest => if c = '.' ∧ rest ≠ [] then dropDotsRev rest else c :: rest

/-- Model of `normalizeOID` (snmp.go): trim whitespace, return "." for the
empty string, ensure a leading dot, strip trailing dots. -/
def normalizeOID (oid : String) : String :=
  let t := goTrim oid.data
  if t = [] then "."
  else
    let t2 := if t.head? = some '.' then t else '.' :: t
    ⟨(dropDotsRev t2.reverse).reverse⟩

/-- Model of `strings.TrimPrefix(s, ".")`: remove one leading dot. -/
def dropDot (l : List Char) : List Char :=
  match l with
  | [] => []
  | c :: rest => if c = '.' then rest else c :: rest

/-- Model of Go `strings.Split(s, ".")` on the character list: split at
every dot; `""` yields `[""]`, consecutive dots yield empty components. -/
def splitDots : List Char → List (List Char)
  | [] => [[]]
  | c :: rest =>
    if c = '.' then [] :: splitDots rest
    else
      match splitDots rest with
      | [] => [[c]]
      | g :: gs => (c :: g) :: gs

/-- Digit accumulation loop of `strconv.Atoi`: fails on any non-digit. -/
def digitsToNatAcc (acc : Nat) : List Char → Option Nat
  | [] => some acc
  | c :: rest =>
    if c.isDigit then digitsToNatAcc (acc * 10 + (c.toNat - 48)) rest
    else none

/-- Digit parsing of `strconv.Atoi`: at least one digit is required. -/
def goAtoiNat : List Char → Option Nat
  | [] => none
  | c :: rest => digitsToNatAcc 0 (c :: rest)

/-- Sign handling of `strconv.Atoi`. -/
def goAtoiCore (l : List Char) : Option Int :=
  match l with
  | [] => none
  | c :: rest =>
    if c = '-' then (goAtoiNat rest).map (fun n => -(n : Int))
    else if c = '+' then (goAtoiNat rest).map (fun n => (n : Int))
    else (goAtoiNat (c :: rest)).map (fun n => (n : Int))

/-- Model of Go `strconv.Atoi`: parse with sign, error (`none`) when the
value does not fit a 64-bit `int`. -/
def goAtoi (l : List Char) : Option Int :=
  match goAtoiCore l with
  | some v =>
    if -(2 ^ 63 : Int) ≤ v ∧ v ≤ (2 ^ 63 : Int) - 1 then some v else none
  | none => none

/-- The per-component value used by `compareOIDs`: `Atoi` result, or 0 when
parsing fails (`if v, err := strconv.Atoi(ap[i]); err == nil`). -/
def compVal (l : List Char) : Int := (goAtoi l).getD 0

/-- Tail of the `compareOIDs` index loop once the second list is exhausted:
each remaining first-list component is compared against 0. -/
def cmpTailLeft : List (List Char) → Int
  | [] => 0
  | a :: as =>
    let ai := compVal a
    if ai < 0 then -1 else if 0 < ai then 1 else cmpTailLeft as

/-- Tail of the `compareOIDs` index loop once the first list is exhausted:
0 is compared against each remaining second-list component. -/
def cmpTailRight : List (List Char) → Int
  | [] => 0
  | b :: bs =>
    let bi := compVal b
    if 0 < bi then -1 else if bi < 0 then 1 else cmpTailRight bs

/-- The index loop of `compareOIDs`: compare corresponding components
numerically, treating an out-of-range index as value 0. -/
def cmpLoop : List (List Char) → List (List Char) → Int
  | [], bs => cmpTailRight bs
  | a :: as, [] => cmpTailLeft (a :: as)
  | a :: as, b :: bs =>
    let ai := compVal a
    let bi := compVal b
    if ai < bi then -1 else if bi < ai then 1 else cmpLoop as bs

/-- Model of `compareOIDs` (snmp.go): equal strings compare 0; otherwise
split both (after removing one leading dot) on dots, compare component
values numerically padding the shorter list with 0, and break ties by
component count. -/
def compareOIDs (a b : String) : Int :=
  if a = b then 0
  else
    let ap := splitDots (dropDot a.data)
    let bp := splitDots (dropDot b.data)
    let r := cmpLoop ap bp
    if r ≠ 0 then r
    else if ap.length < bp.length then -1
    else if bp.length < ap.length then 1
    else 0

/-- Model of `nextOID` (snmp.go): linear scan for the first entry of the
sorted list comparing strictly greater than `current`. -/
def nextOID : List String → String → Option String
  | [], _ => none
  | oid :: rest, current =>
    if 0 < compareOIDs oid current then some oid else nextOID rest current

example : normalizeOID "1.2.3" = ".1.2.3" := by decide
example : normalizeOID " .1.2. " = ".1.2" := by decide
example : normalizeOID "" = "." := by decide
example : normalizeOID "..." = "." := by decide
example : compareOIDs ".5.2.1" ".5.10.1" = -1 := by decide
example : compareOIDs ".1.2" ".1.2.0" = -1 := by decide
example : compareOIDs ".1.2" "1.2" = 0 := by decide
example : nextOID [".1.0", ".2.0"] ".1.5" = some ".2.0" := by decide
example : nextOID [".1.0", ".2.0"] ".2.0" = none := by decide

/-- gosnmp ASN.1 BER value types used by snmp.go (plus the zero value of
`gosnmp.Asn1BER`, produced by a Go map miss). -/
inductive Asn1BER where
  | UnknownType
  | Integer
  | OctetString
  | Gauge32
  | Counter32
  | TimeTicks
  | NoSuchObject
  | EndOfMibView
  deriving DecidableEq, Repr

/-- The runtime values stored in `gosnmp.SnmpPDU.Value` by snmp.go:
nil, a `uint32` (already reduced mod `2 ^ 32`), or a byte string. -/
inductive GoValue where
  | vNil
  | vUint (n : Nat)
  | vBytes (s : String)
  deriving DecidableEq, Repr

/-- Model of `gosnmp.SnmpPDU` restricted to the fields snmp.go uses. -/
structure SnmpPDU where
  name : String
  type : Asn1BER
  value : GoValue
  deriving DecidableEq, Repr

/-- The zero `gosnmp.SnmpPDU`, returned by a Go map access on a missing
key. -/
def zeroPDU : SnmpPDU := ⟨"", Asn1BER.UnknownType, GoValue.vNil⟩

/-- Model of `gaugePDU` (snmp.go). -/
def gaugePDU (oid : String) (value : Nat) : SnmpPDU :=
  ⟨oid, Asn1BER.Gauge32, GoValue.vUint value⟩

/-- Model of `counterPDU` (snmp.go). -/
def counterPDU (oid : String) (value : Nat) : SnmpPDU :=
  ⟨oid, Asn1BER.Counter32, GoValue.vUint value⟩

/-- Model of `timeTicksPDU` (snmp.go): the stored value is `value * 100`
in `uint32` arithmetic. -/
def timeTicksPDU (oid : String) (value : Nat) : SnmpPDU :=
  ⟨oid, Asn1BER.TimeTicks, GoValue.vUint (value * 100 % 2 ^ 32)⟩

/-- Model of `octetStringPDU` (snmp.go). -/
def octetStringPDU (oid : String) (value : String) : SnmpPDU :=
  ⟨oid, Asn1BER.OctetString, GoValue.vBytes value⟩

/-- The `EndOfMibView` marker PDU built inline by the handlers. -/
def endOfMibPDU (oid : String) : SnmpPDU :=
  ⟨oid, Asn1BER.EndOfMibView, GoValue.vNil⟩

/-- The `NoSuchObject` marker PDU built inline by `handleGet`. -/
def noSuchObjectPDU (oid : String) : SnmpPDU :=
  ⟨oid, Asn1BER.NoSuchObject, GoValue.vNil⟩

/-- Go map read `valueMap[oid]` (zero value on a miss). -/
def mapGet (vm : List (String × SnmpPDU)) (oid : String) : SnmpPDU :=
  (List.lookup oid vm).getD zeroPDU

/-- The `handleGet` loop (snmp.go): the accumulator models the `results`
slice. -/
def handleGetLoop (vm : List (String × SnmpPDU)) (acc : List SnmpPDU) :
    List SnmpPDU → List SnmpPDU
  | [] => acc
  | vb :: rest =>
    let oid := normalizeOID vb.name
    match List.lookup oid vm with
    | some val => handleGetLoop vm (acc ++ [val]) rest
    | none => handleGetLoop vm (acc ++ [noSuchObjectPDU oid]) rest

/-- Model of `handleGet` (snmp.go). -/
def handleGet (vars : List SnmpPDU) (vm : List (String × SnmpPDU)) :
    List SnmpPDU :=
  handleGetLoop vm [] vars

/-- The `handleGetNext` loop (snmp.go). -/
def handleGetNextLoop (vm : List (String × SnmpPDU))
    (sortedOIDs : List String) (acc : List SnmpPDU) :
    List SnmpPDU → List SnmpPDU
  | [] => acc
  | vb :: rest =>
    let oid := normalizeOID vb.name
    match nextOID sortedOIDs oid with
    | none => handleGetNextLoop vm sortedOIDs (acc ++ [endOfMibPDU oid]) rest
    | some nxt =>
      handleGetNextLoop vm sortedOIDs (acc ++ [mapGet vm nxt]) rest

/-- Model of `handleGetNext` (snmp.go). -/
def handleGetNext (vars : List SnmpPDU) (vm : List (String × SnmpPDU))
    (sortedOIDs : List String) : List SnmpPDU :=
  handleGetNextLoop vm sortedOIDs [] vars

/-- The non-repeater loop of `handleGetBulk` (snmp.go); Go duplicates the
`handleGetNext` loop body here. -/
def bulkFirstLoop (vm : List (String × SnmpPDU)) (sortedOIDs : List String)
    (acc : List SnmpPDU) : List SnmpPDU → List SnmpPDU
  | [] => acc
  | vb :: rest =>
    let oid := normalizeOID vb.name
    match nextOID sortedOIDs oid with
    | none => bulkFirstLoop vm sortedOIDs (acc ++ [endOfMibPDU oid]) rest
    | some nxt => bulkFirstLoop vm sortedOIDs (acc ++ [mapGet vm nxt]) rest

/-- The inner repetition loop of `handleGetBulk` (snmp.go): `current` is the
walk cursor, the `Nat` argument the remaining repetitions. -/
def bulkWalkLoop (vm : List (String × SnmpPDU)) (sortedOIDs : List String)
    (acc : List SnmpPDU) (current : String) : Nat → List SnmpPDU
  | 0 => acc
  | r + 1 =>
    match nextOID sortedOIDs current with
    | none => acc ++ [endOfMibPDU current]
    | some nxt =>
      let val := mapGet vm nxt
      bulkWalkLoop vm sortedOIDs (acc ++ [val]) val.name r

/-- One repeater cursor of `handleGetBulk`, started at `current` with `r`
repetitions. -/
def bulkCursor (vm : List (String × SnmpPDU)) (sortedOIDs : List String)
    (current : String) (r : Nat) : List SnmpPDU :=
  bulkWalkLoop vm sortedOIDs [] current r

/-- The outer repeater loop of `handleGetBulk` (snmp.go). -/
def bulkRepeatersLoop (vm : List (String × SnmpPDU))
    (sortedOIDs : List String) (maxRepetitions : Nat) (acc : List SnmpPDU) :
    List SnmpPDU → List SnmpPDU
  | [] => acc
  | vb :: rest =>
    let oid := normalizeOID vb.name
    bulkRepeatersLoop vm sortedOIDs maxRepetitions
      (bulkWalkLoop vm sortedOIDs acc oid maxRepetitions) rest

/-- Supported SNMP versions of `gosnmp`. -/
inductive SnmpVersionM where
  | Version1
  | Version2c
  | Version3
  deriving DecidableEq, Repr

/-- The PDU types `handleRequest` switches on (`OtherRequest` stands for
every unsupported type) plus the `GetResponse` type of replies. -/
inductive PDUTypeM where
  | GetRequest
  | GetNextRequest
  | GetBulkRequest
  | GetResponse
  | OtherRequest
  deriving DecidableEq, Repr

/-- Error status of a reply packet (`gosnmp.GenErr` or no error). -/
inductive SnmpErrM where
  | NoError
  | GenErr
  deriving DecidableEq, Repr

/-- An inbound decoded SNMP packet, restricted to the fields snmp.go
reads. `nonRepeaters` is Go `uint8`, `maxRepetitions` Go `uint32`; both
are non-negative, hence `Nat`. -/
structure InPacket where
  version : SnmpVersionM
  community : String
  pduType : PDUTypeM
  requestID : Nat
  msgID : Nat
  nonRepeaters : Nat
  maxRepetitions : Nat
  varBinds : List SnmpPDU
  deriving DecidableEq, Repr

/-- The reply packet built by `handleRequest`. -/
structure OutPacket where
  version : SnmpVersionM
  community : String
  pduType : PDUTypeM
  requestID : Nat
  msgID : Nat
  nonRepeaters : Nat
  maxRepetitions : Nat
  errorStatus : SnmpErrM
  varBinds : List SnmpPDU
  deriving DecidableEq, Repr

/-- The `nonRepeaters` clamp of `handleGetBulk` (snmp.go):
`if nonRepeaters > len(vars) { nonRepeaters = len(vars) }`. -/
def clampNonRepeaters (pkt : InPacket) : Nat :=
  if pkt.varBinds.length < pkt.nonRepeaters then pkt.varBinds.length
  else pkt.nonRepeaters

/-- The `maxRepetitions` clamp of `handleGetBulk` (snmp.go):
`if maxRepetitions <= 0 { maxRepetitions = 1 }` (the value is a converted
`uint32`, so only 0 is clamped). -/
def clampMaxRepetitions (pkt : InPacket) : Nat :=
  if pkt.maxRepetitions = 0 then 1 else pkt.maxRepetitions

/-- Model of `handleGetBulk` (snmp.go): clamp `nonRepeaters` to the number
of variables and `maxRepetitions` to at least 1, answer the first
`nonRepeaters` variables GetNext-style, then walk each remaining variable
as a cursor. -/
def handleGetBulk (pkt : InPacket) (vm : List (String × SnmpPDU))
    (sortedOIDs : List String) : List SnmpPDU :=
  let vars := pkt.varBinds
  let nonRepeaters := clampNonRepeaters pkt
  let maxRepetitions := clampMaxRepetitions pkt
  let firstPart := bulkFirstLoop vm sortedOIDs [] (vars.take nonRepeaters)
  bulkRepeatersLoop vm sortedOIDs maxRepetitions firstPart
    (vars.drop nonRepeaters)

/-- Model of `models.TestResult` restricted to the fields snmp.go reads:
site identity, timestamp (`Option Int`: `none` is Go's zero time), success
flag and total duration in milliseconds. -/
structure TestRec where
  timestamp : Option Int
  siteName : String
  siteURL : String
  success : Bool
  totalDurationMs : Int
  deriving DecidableEq, Repr

/-- Model of `siteStats` (snmp.go); `float64` is modeled as `ℚ`. -/
structure SiteStats where
  totalTests : Int
  successfulTests : Int
  failedTests : Int
  lastSuccessTime : Option Int
  lastFailureTime : Option Int
  lastDurationMs : Int
  avgDurationMs : ℚ
  maxDurationMs : Int
  minDurationMs : Int
  deriving DecidableEq, Repr

/-- The mutable state of `SNMPOutput` relevant to the claims (maps as
association lists in insertion order), plus the two configuration strings
the handlers read. -/
structure SNMPState where
  cache : List TestRec
  maxSize : Nat
  stats : List (String × SiteStats)
  siteIndex : List (String × Int)
  nextSiteIndex : Int
  community : String
  enterpriseOID : String
  deriving DecidableEq, Repr

/-- The configuration used by `NewSNMPOutput`. -/
structure SNMPConfigM where
  community : String
  enterpriseOID : String
  deriving DecidableEq, Repr

/-- The state built by `NewSNMPOutput` (snmp.go): empty cache with
capacity 100, empty statistics and site index, `nextSiteIndex` 0. -/
def initState (cfg : SNMPConfigM) : SNMPState :=
  { cache := []
    maxSize := 100
    stats := []
    siteIndex := []
    nextSiteIndex := 0
    community := cfg.community
    enterpriseOID := cfg.enterpriseOID }

/-- The site key used by `Write` (snmp.go): the site name, or the URL when
the name is empty. -/
def siteKeyOf (r : TestRec) : String :=
  if r.siteName = "" then r.siteURL else r.siteName

/-- Replace the value bound to `k` in an association list (Go map update
of an existing key). -/
def updateAssoc (m : List (String × SiteStats)) (k : String)
    (f : SiteStats → SiteStats) : List (String × SiteStats) :=
  m.map fun p => if p.1 = k then (p.1, f p.2) else p

/-- The statistics update performed by `Write` (snmp.go) on the aggregate
of the written record's site.  The Go code mutates the fields one after
the other (bump totals, record last duration, success/failure counters
and times, min/max against the pre-update extrema, then the incremental
running average from the already-bumped total); since no field is read
after being written — the average reads the bumped total, written here as
`newTotal` — the sequence is recorded as a single record update. -/
def updateStats (st : SiteStats) (r : TestRec) : SiteStats :=
  let newTotal := st.totalTests + 1
  { totalTests := newTotal
    successfulTests :=
      if r.success then st.successfulTests + 1 else st.successfulTests
    failedTests := if r.success then st.failedTests else st.failedTests + 1
    lastSuccessTime := if r.success then r.timestamp else st.lastSuccessTime
    lastFailureTime := if r.success then st.lastFailureTime else r.timestamp
    lastDurationMs := r.totalDurationMs
    avgDurationMs :=
      (st.avgDurationMs * ((newTotal : ℚ) - 1) + (r.totalDurationMs : ℚ)) /
        (newTotal : ℚ)
    maxDurationMs :=
      if st.maxDurationMs < r.totalDurationMs then r.totalDurationMs
      else st.maxDurationMs
    minDurationMs :=
      if r.totalDurationMs < st.minDurationMs then r.totalDurationMs
      else st.minDurationMs }

/-- The fresh aggregate created on first sight of a site (snmp.go): only
min/max are seeded with the record's duration. -/
def freshStats (r : TestRec) : SiteStats :=
  { totalTests := 0
    successfulTests := 0
    failedTests := 0
    lastSuccessTime := none
    lastFailureTime := none
    lastDurationMs := 0
    avgDurationMs := 0
    maxDurationMs := r.totalDurationMs
    minDurationMs := r.totalDurationMs }

/-- Model of `(*SNMPOutput).Write` (snmp.go): evict the oldest cache entry
at capacity, append the record, create the aggregate and site index entry
on first sight of the site key, then update the aggregate. -/
def SNMPState.write (s : SNMPState) (r : TestRec) : SNMPState :=
  let cache1 := if s.maxSize ≤ s.cache.length then s.cache.drop 1 else s.cache
  let cache2 := cache1 ++ [r]
  let key := siteKeyOf r
  let createNew := (List.lookup key s.stats).isNone
  let stats1 := if createNew then s.stats ++ [(key, freshStats r)] else s.stats
  let assignIdx := createNew ∧ (List.lookup key s.siteIndex).isNone
  let nextIdx1 := if assignIdx then s.nextSiteIndex + 1 else s.nextSiteIndex
  let siteIndex1 :=
    if assignIdx then s.siteIndex ++ [(key, s.nextSiteIndex + 1)]
    else s.siteIndex
  { s with cache := cache2
           stats := updateAssoc stats1 key (fun st => updateStats st r)
           siteIndex := siteIndex1
           nextSiteIndex := nextIdx1 }

/-- A sequence of `Write` calls. -/
def writeAll (s : SNMPState) (rs : List TestRec) : SNMPState :=
  rs.foldl SNMPState.write s

/-- Decimal digit printing for `fmt.Sprintf("%d", ·)`: fuel-driven so the
kernel can evaluate it; the fuel is always sufficient since a number has
at most as many digits as its value. -/
def natStrGo : Nat → Nat → List Char → List Char
  | 0, _, acc => acc
  | fuel + 1, n, acc =>
    if n = 0 then acc
    else natStrGo fuel (n / 10) (Char.ofNat (48 + n % 10) :: acc)

/-- Decimal rendering of a `Nat`. -/
def natStr (n : Nat) : String := if n = 0 then "0" else ⟨natStrGo n n []⟩

/-- Model of `fmt.Sprintf("%d", i)` for a Go `int`. -/
def intStr (i : Int) : String :=
  if i < 0 then "-" ++ natStr i.natAbs else natStr i.toNat

/-- Go conversion `uint32(i)` of a signed integer: two's-complement
truncation. -/
def u32ofInt (i : Int) : Nat := (i % (2 ^ 32 : Int)).toNat

/-- Model of `math.Round` (round half away from zero), written with
explicit integer floor division so that the kernel can evaluate it:
for `q = n / d` with `d > 0`, `round(q) = ⌊(2n + d) / 2d⌋` when `q ≥ 0`
and `-round(-q)` otherwise. -/
def goRound (q : ℚ) : Int :=
  if 0 ≤ q then (2 * q.num + (q.den : Int)).fdiv (2 * (q.den : Int))
  else -((-(2 * q.num) + (q.den : Int)).fdiv (2 * (q.den : Int)))

/-- The effective base OID of `buildOIDSnapshot` (snmp.go): the normalized
configured OID, or the default when that normalizes to ".". -/
def effBase (enterpriseOID : String) : String :=
  let base := normalizeOID enterpriseOID
  if base = "." then ".1.3.6.1.4.1.99999" else base

/-- The ten per-site bindings inserted by `buildOIDSnapshot` for one site
entry, in insertion order. -/
def tenLeaves (siteBase : String) (idx : Int) (name : String)
    (st : SiteStats) : List (String × SnmpPDU) :=
  let p := siteBase ++ "." ++ intStr idx
  [ (p ++ ".1", octetStringPDU (p ++ ".1") name),
    (p ++ ".2", counterPDU (p ++ ".2") (u32ofInt st.totalTests)),
    (p ++ ".3", counterPDU (p ++ ".3") (u32ofInt st.successfulTests)),
    (p ++ ".4", counterPDU (p ++ ".4") (u32ofInt st.failedTests)),
    (p ++ ".5", gaugePDU (p ++ ".5")
      (match st.lastSuccessTime with
       | some u => u32ofInt u
       | none => 0)),
    (p ++ ".6", gaugePDU (p ++ ".6")
      (match st.lastFailureTime with
       | some u => u32ofInt u
       | none => 0)),
    (p ++ ".7", gaugePDU (p ++ ".7") (u32ofInt st.lastDurationMs)),
    (p ++ ".8", gaugePDU (p ++ ".8") (u32ofInt (goRound st.avgDurationMs))),
    (p ++ ".9", gaugePDU (p ++ ".9") (u32ofInt st.maxDurationMs)),
    (p ++ ".10", gaugePDU (p ++ ".10") (u32ofInt st.minDurationMs)) ]

/-- The comparison function passed to `sort.Slice` for site entries in
`buildOIDSnapshot`: by index, then by name. -/
def lessEntry (e1 e2 : String × Int × SiteStats) : Prop :=
  if e1.2.1 = e2.2.1 then e1.1 < e2.1 else e1.2.1 < e2.2.1

instance : DecidableRel lessEntry := fun e1 e2 => by
  unfold lessEntry; infer_instance

/-- The comparison function passed to `sort.Slice` for the OID list in
`buildOIDSnapshot`. -/
def lessOID (a b : String) : Prop := compareOIDs a b < 0

instance : DecidableRel lessOID := fun a b => by
  unfold lessOID; infer_instance

/-- Model of `buildOIDSnapshot` (snmp.go): the four scalar bindings, then
the ten leaves of every site present in both `stats` and `siteIndex`
(sorted by index then name), together with the key list sorted by
`compareOIDs`.  `uptime` is `uint32(time.Since(s.startTime).Seconds())`,
supplied as a parameter since the embedding has no clock.  Go's maps are
modeled as association lists and `sort.Slice` as insertion sort: on every
state reachable by `Write` all keys are distinct and both comparators are
strict total orders on them, so the sorted results are unique and the
model is exact. -/
def buildOIDSnapshot (s : SNMPState) (uptime : Nat) :
    List String × List (String × SnmpPDU) :=
  let base := effBase s.enterpriseOID
  let cacheSize := s.cache.length % 2 ^ 32
  let maxSizeV := s.maxSize % 2 ^ 32
  let siteCount := s.siteIndex.length % 2 ^ 32
  let uptimeV := uptime % 2 ^ 32
  let scalars : List (String × SnmpPDU) :=
    [ (base ++ ".1.0", gaugePDU (base ++ ".1.0") cacheSize),
      (base ++ ".2.0", gaugePDU (base ++ ".2.0") maxSizeV),
      (base ++ ".3.0", gaugePDU (base ++ ".3.0") siteCount),
      (base ++ ".4.0", timeTicksPDU (base ++ ".4.0") uptimeV) ]
  let entries : List (String × Int × SiteStats) :=
    s.stats.filterMap fun p =>
      (List.lookup p.1 s.siteIndex).map fun idx => (p.1, idx, p.2)
  let sortedEntries := List.insertionSort lessEntry entries
  let siteBase := base ++ ".5"
  let siteVals :=
    sortedEntries.flatMap fun e => tenLeaves siteBase e.2.1 e.1 e.2.2
  let values := scalars ++ siteVals
  let oids := List.insertionSort lessOID (values.map Prod.fst)
  (oids, values)

/-- Model of `handleRequest` (snmp.go) after packet decoding: check the
version and the community string (silently dropping the request — `none` —
on mismatch), build a fresh snapshot, dispatch on the PDU type, and return
the reply packet. -/
def handleRequest (s : SNMPState) (uptime : Nat) (pkt : InPacket) :
    Option OutPacket :=
  if pkt.version ≠ SnmpVersionM.Version2c ∧ pkt.version ≠ SnmpVersionM.Version1
  then none
  else if pkt.community ≠ s.community then none
  else
    let snap := buildOIDSnapshot s uptime
    let sortedOIDs := snap.1
    let valueMap := snap.2
    let dispatched : SnmpErrM × List SnmpPDU :=
      match pkt.pduType with
      | PDUTypeM.GetRequest =>
        (SnmpErrM.NoError, handleGet pkt.varBinds valueMap)
      | PDUTypeM.GetNextRequest =>
        (SnmpErrM.NoError, handleGetNext pkt.varBinds valueMap sortedOIDs)
      | PDUTypeM.GetBulkRequest =>
        (SnmpErrM.NoError, handleGetBulk pkt valueMap sortedOIDs)
      | _ => (SnmpErrM.GenErr, pkt.varBinds)
    some { version := pkt.version
           community := pkt.community
           pduType := PDUTypeM.GetResponse
           requestID := pkt.requestID
           msgID := pkt.msgID
           nonRepeaters := pkt.nonRepeaters
           maxRepetitions := pkt.maxRepetitions
           errorStatus := dispatched.1
           varBinds := dispatched.2 }

example : natStr 105 = "105" := by decide
example : intStr 12 = "12" := by decide
example : u32ofInt (-1) = 2 ^ 32 - 1 := by decide
example : goRound (5 / 2 : ℚ) = 3 := by with_unfolding_all decide
example : goRound (-(5 / 2) : ℚ) = -3 := by with_unfolding_all decide

/-- The per-variable reply of `handleGet`. -/
def getReply (vm : List (String × SnmpPDU)) (vb : SnmpPDU) : SnmpPDU :=
  let oid := normalizeOID vb.name
  match List.lookup oid vm with
  | some val => val
  | none => noSuchObjectPDU oid

/-- The per-variable reply of `handleGetNext`. -/
def getNextReply (vm : List (String × SnmpPDU)) (sortedOIDs : List String)
    (vb : SnmpPDU) : SnmpPDU :=
  let oid := normalizeOID vb.name
  match nextOID sortedOIDs oid with
  | none => endOfMibPDU oid
  | some nxt => mapGet vm nxt

theorem handleGetLoop_eq (vm : List (String × SnmpPDU)) :
    ∀ (vars : List SnmpPDU) (acc : List SnmpPDU),
      handleGetLoop vm acc vars = acc ++ vars.map (getReply vm) := by
  intro vars
  induction vars with
  | nil => intro acc; simp [handleGetLoop]
  | cons vb rest ih =>
    intro acc
    simp only [handleGetLoop, getReply, List.map_cons]
    cases h : List.lookup (normalizeOID vb.name) vm with
    | none => simp [h, ih]
    | some val => simp [h, ih]

theorem handleGet_eq_map (vars : List SnmpPDU) (vm : List (String × SnmpPDU)) :
    handleGet vars vm = vars.map (getReply vm) := by
  simpa using handleGetLoop_eq vm vars []

theorem handleGetNextLoop_eq (vm : List (String × SnmpPDU))
    (sortedOIDs : List String) :
    ∀ (vars : List SnmpPDU) (acc : List SnmpPDU),
      handleGetNextLoop vm sortedOIDs acc vars =
        acc ++ vars.map (getNextReply vm sortedOIDs) := by
  intro vars
  induction vars with
  | nil => intro acc; simp [handleGetNextLoop]
  | cons vb rest ih =>
    intro acc
    simp only [handleGetNextLoop, getNextReply, List.map_cons]
    cases h : nextOID sortedOIDs (normalizeOID vb.name) with
    | none => simp [h, ih]
    | some nxt => simp [h, ih]

theorem handleGetNext_eq_map (vars : List SnmpPDU)
    (vm : List (String × SnmpPDU)) (sortedOIDs : List String) :
    handleGetNext vars vm sortedOIDs =
      vars.map (getNextReply vm sortedOIDs) := by
  simpa using handleGetNextLoop_eq vm sortedOIDs vars []

theorem bulkFirstLoop_eq (vm : List (String × SnmpPDU))
    (sortedOIDs : List String) :
    ∀ (vars : List SnmpPDU) (acc : List SnmpPDU),
      bulkFirstLoop vm sortedOIDs acc vars =
        acc ++ vars.map (getNextReply vm sortedOIDs) := by
  intro vars
  induction vars with
  | nil => intro acc; simp [bulkFirstLoop]
  | cons vb rest ih =>
    intro acc
    simp only [bulkFirstLoop, getNextReply, List.map_cons]
    cases h : nextOID sortedOIDs (normalizeOID vb.name) with
    | none => simp [h, ih]
    | some nxt => simp [h, ih]

theorem compareOIDs_self (a : String) : compareOIDs a a = 0 := by
  simp [compareOIDs]

theorem nextOID_eq_none (sortedOIDs : List String) (current : String)
    (h : nextOID sortedOIDs current = none) :
    ∀ y ∈ sortedOIDs, compareOIDs y current ≤ 0 := by
  induction sortedOIDs with
  | nil => intro y hy; cases hy
  | cons oid rest ih =>
    intro y hy
    by_cases hgt : 0 < compareOIDs oid current
    · simp [nextOID, hgt] at h
    · simp only [nextOID, if_neg hgt] at h
      rcases List.mem_cons.mp hy with rfl | hy
      · omega
      · exact ih h y hy

theorem nextOID_eq_some (sortedOIDs : List String) (current x : String)
    (hsorted : List.Pairwise lessOID sortedOIDs)
    (h : nextOID sortedOIDs current = some x) :
    x ∈ sortedOIDs ∧ 0 < compareOIDs x current ∧
      ∀ y ∈ sortedOIDs, 0 < compareOIDs y current → compareOIDs x y ≤ 0 := by
  induction sortedOIDs with
  | nil => cases h
  | cons oid rest ih =>
    rcases List.pairwise_cons.mp hsorted with ⟨hhead, htail⟩
    by_cases hgt : 0 < compareOIDs oid current
    · simp only [nextOID, if_pos hgt, Option.some.injEq] at h
      subst h
      refine ⟨List.mem_cons_self _ _, hgt, ?_⟩
      intro y hy _
      rcases List.mem_cons.mp hy with rfl | hy
      · simp [compareOIDs_self]
      · exact le_of_lt (hhead y hy)
    · simp only [nextOID, if_neg hgt] at h
      obtain ⟨hmem, hxgt, hleast⟩ := ih htail h
      refine ⟨List.mem_cons_of_mem _ hmem, hxgt, ?_⟩
      intro y hy hygt
      rcases List.mem_cons.mp hy with rfl | hy
      · exact absurd hygt hgt
      · exact hleast y hy hygt

/-- Claim C1: for every GetNext request, each requested address (after
normalization) is answered with the value bound to the smallest address of
the sorted snapshot table strictly greater than it under `compareOIDs`;
when no such address exists an end-of-tree (`EndOfMibView`) marker carrying
the requested address is returned; exactly one reply is produced per
requested address, in request order. -/
theorem getNext_least_greater (sortedOIDs : List String)
    (vm : List (String × SnmpPDU)) (vars : List SnmpPDU)
    (hsorted : List.Pairwise lessOID sortedOIDs)
    (hkeys : ∀ oid ∈ sortedOIDs, (List.lookup oid vm).isSome) :
    (handleGetNext vars vm sortedOIDs).length = vars.length ∧
    ∀ (i : Nat) (vb : SnmpPDU), vars[i]? = some vb →
      ((∃ x v, x ∈ sortedOIDs ∧ 0 < compareOIDs x (normalizeOID vb.name) ∧
          (∀ y ∈ sortedOIDs,
            0 < compareOIDs y (normalizeOID vb.name) → compareOIDs x y ≤ 0) ∧
          List.lookup x vm = some v ∧
          (handleGetNext vars vm sortedOIDs)[i]? = some v) ∨
       ((∀ y ∈ sortedOIDs, compareOIDs y (normalizeOID vb.name) ≤ 0) ∧
          (handleGetNext vars vm sortedOIDs)[i]? =
            some (endOfMibPDU (normalizeOID vb.name)))) := by
  rw [handleGetNext_eq_map]
  refine ⟨by simp, ?_⟩
  intro i vb hvb
  have hrep : (vars.map (getNextReply vm sortedOIDs))[i]? =
      some (getNextReply vm sortedOIDs vb) := by
    rw [List.getElem?_map, hvb]; rfl
  cases hnx : nextOID sortedOIDs (normalizeOID vb.name) with
  | none =>
    right
    refine ⟨nextOID_eq_none _ _ hnx, ?_⟩
    rw [hrep]
    simp [getNextReply, hnx]
  | some nxt =>
    left
    obtain ⟨hmem, hgt, hleast⟩ := nextOID_eq_some _ _ _ hsorted hnx
    obtain ⟨v, hv⟩ := Option.isSome_iff_exists.mp (hkeys nxt hmem)
    refine ⟨nxt, v, hmem, hgt, hleast, hv, ?_⟩
    rw [hrep]
    simp [getNextReply, hnx, mapGet, hv]

/-- Witness for C1 on a concrete two-entry table. -/
theorem getNext_least_greater_witness :
    (List.Pairwise lessOID [".1.3.1.0", ".1.3.2.0"] ∧
      (∀ oid ∈ [".1.3.1.0", ".1.3.2.0"],
        (List.lookup oid
          [(".1.3.1.0", gaugePDU ".1.3.1.0" 7),
           (".1.3.2.0", gaugePDU ".1.3.2.0" 9)]).isSome)) ∧
    (handleGetNext [⟨".1.3.1.5", Asn1BER.UnknownType, GoValue.vNil⟩]
        [(".1.3.1.0", gaugePDU ".1.3.1.0" 7),
         (".1.3.2.0", gaugePDU ".1.3.2.0" 9)]
        [".1.3.1.0", ".1.3.2.0"]).length = 1 := by
  refine ⟨⟨by decide, by decide⟩, ?_⟩
  exact (getNext_least_greater [".1.3.1.0", ".1.3.2.0"]
    [(".1.3.1.0", gaugePDU ".1.3.1.0" 7), (".1.3.2.0", gaugePDU ".1.3.2.0" 9)]
    [⟨".1.3.1.5", Asn1BER.UnknownType, GoValue.vNil⟩]
    (by decide) (by decide)).1

/-- Claim C4: for every Get request, each requested address present in the
snapshot table yields its exact value, each absent one a per-address
`NoSuchObject` marker at the (normalized) address; replies are in request
order, each reply depends only on its own requested address, and the
request as a whole always succeeds (the handler is total). -/
theorem get_exact_or_noSuchObject (vars : List SnmpPDU)
    (vm : List (String × SnmpPDU)) :
    (handleGet vars vm).length = vars.length ∧
    ∀ (i : Nat) (vb : SnmpPDU), vars[i]? = some vb →
      ((∃ v, List.lookup (normalizeOID vb.name) vm = some v ∧
          (handleGet vars vm)[i]? = some v) ∨
       (List.lookup (normalizeOID vb.name) vm = none ∧
          (handleGet vars vm)[i]? =
            some (noSuchObjectPDU (normalizeOID vb.name)))) := by
  rw [handleGet_eq_map]
  refine ⟨by simp, ?_⟩
  intro i vb hvb
  have hrep : (vars.map (getReply vm))[i]? = some (getReply vm vb) := by
    rw [List.getElem?_map, hvb]; rfl
  cases hlk : List.lookup (normalizeOID vb.name) vm with
  | none =>
    right
    refine ⟨rfl, ?_⟩
    rw [hrep]; simp [getReply, hlk]
  | some v =>
    left
    refine ⟨v, rfl, ?_⟩
    rw [hrep]; simp [getReply, hlk]

/-- Witness for C4: one present and one absent address in the same
request. -/
theorem get_exact_or_noSuchObject_witness :
    (handleGet [⟨".1.3.1.0", Asn1BER.UnknownType, GoValue.vNil⟩,
                ⟨".1.3.9.0", Asn1BER.UnknownType, GoValue.vNil⟩]
       [(".1.3.1.0", gaugePDU ".1.3.1.0" 7)]).length = 2 :=
  (get_exact_or_noSuchObject
    [⟨".1.3.1.0", Asn1BER.UnknownType, GoValue.vNil⟩,
     ⟨".1.3.9.0", Asn1BER.UnknownType, GoValue.vNil⟩]
    [(".1.3.1.0", gaugePDU ".1.3.1.0" 7)]).1

/-- Claim C8: a request whose community string does not match the
configured one (or whose protocol version is unsupported) is dropped
before any reply is built: the handler returns nothing at all rather than
an error reply. -/
theorem unauthorized_silent_drop (s : SNMPState) (uptime : Nat)
    (pkt : InPacket)
    (h : pkt.community ≠ s.community ∨
      (pkt.version ≠ SnmpVersionM.Version1 ∧
        pkt.version ≠ SnmpVersionM.Version2c)) :
    handleRequest s uptime pkt = none := by
  by_cases hv : pkt.version ≠ SnmpVersionM.Version2c ∧
      pkt.version ≠ SnmpVersionM.Version1
  · simp [handleRequest, hv]
  · rcases h with hc | hver
    · simp only [handleRequest, if_neg hv]
      simp [hc]
    · exact absurd ⟨hver.2, hver.1⟩ hv

/-- Witness for C8: a mismatched community on a live state produces no
reply. -/
theorem unauthorized_silent_drop_witness :
    ("wrong" ≠ (initState ⟨"public", ".1.3.6.1.4.1.55555"⟩).community) ∧
    handleRequest (initState ⟨"public", ".1.3.6.1.4.1.55555"⟩) 5
      { version := SnmpVersionM.Version2c
        community := "wrong"
        pduType := PDUTypeM.GetRequest
        requestID := 1
        msgID := 1
        nonRepeaters := 0
        maxRepetitions := 10
        varBinds := [] } = none :=
  ⟨by decide,
   unauthorized_silent_drop _ 5 _ (Or.inl (by decide))⟩

theorem lookup_mem {α β : Type} [BEq α] [LawfulBEq α] :
    ∀ {l : List (α × β)} {k : α} {v : β},
      List.lookup k l = some v → (k, v) ∈ l := by
  intro l
  induction l with
  | nil => intro k v h; cases h
  | cons p rest ih =>
    intro k v h
    obtain ⟨a, b⟩ := p
    rw [List.lookup_cons] at h
    cases hka : (k == a) with
    | true =>
      rw [hka] at h
      simp only [Option.some.injEq] at h
      subst h
      have hkeq : k = a := eq_of_beq hka
      subst hkeq
      exact List.mem_cons_self _ _
    | false =>
      rw [hka] at h
      exact List.mem_cons_of_mem _ (ih h)

theorem bulkWalkLoop_acc (vm : List (String × SnmpPDU))
    (sortedOIDs : List String) :
    ∀ (r : Nat) (acc : List SnmpPDU) (cur : String),
      bulkWalkLoop vm sortedOIDs acc cur r =
        acc ++ bulkCursor vm sortedOIDs cur r := by
  intro r
  induction r with
  | zero => intro acc cur; simp [bulkWalkLoop, bulkCursor]
  | succ r ih =>
    intro acc cur
    simp only [bulkWalkLoop, bulkCursor]
    cases h : nextOID sortedOIDs cur with
    | none => simp [h]
    | some nxt =>
      simp only [h]
      rw [ih, ih ([] ++ [mapGet vm nxt])]
      simp

theorem bulkCursor_zero (vm : List (String × SnmpPDU))
    (sortedOIDs : List String) (cur : String) :
    bulkCursor vm sortedOIDs cur 0 = [] := rfl

theorem bulkCursor_succ (vm : List (String × SnmpPDU))
    (sortedOIDs : List String) (cur : String) (r : Nat) :
    bulkCursor vm sortedOIDs cur (r + 1) =
      match nextOID sortedOIDs cur with
      | none => [endOfMibPDU cur]
      | some nxt =>
        mapGet vm nxt :: bulkCursor vm sortedOIDs (mapGet vm nxt).name r := by
  simp only [bulkCursor, bulkWalkLoop]
  cases h : nextOID sortedOIDs cur with
  | none => simp
  | some nxt => simp [bulkWalkLoop_acc]

theorem bulkCursor_length_le (vm : List (String × SnmpPDU))
    (sortedOIDs : List String) :
    ∀ (r : Nat) (cur : String),
      (bulkCursor vm sortedOIDs cur r).length ≤ r := by
  intro r
  induction r with
  | zero => intro cur; simp [bulkCursor_zero]
  | succ r ih =>
    intro cur
    rw [bulkCursor_succ]
    cases h : nextOID sortedOIDs cur with
    | none => simp
    | some nxt =>
      simpa using ih (mapGet vm nxt).name

theorem bulkCursor_length_pos (vm : List (String × SnmpPDU))
    (sortedOIDs : List String) (r : Nat) (cur : String) :
    1 ≤ (bulkCursor vm sortedOIDs cur (r + 1)).length := by
  rw [bulkCursor_succ]
  cases h : nextOID sortedOIDs cur <;> simp

theorem bulkCursor_full_of_no_eom (vm : List (String × SnmpPDU))
    (sortedOIDs : List String) :
    ∀ (r : Nat) (cur : String),
      (∀ p ∈ bulkCursor vm sortedOIDs cur r,
        p.type ≠ Asn1BER.EndOfMibView) →
      (bulkCursor vm sortedOIDs cur r).length = r := by
  intro r
  induction r with
  | zero => intro cur _; simp [bulkCursor_zero]
  | succ r ih =>
    intro cur hno
    rw [bulkCursor_succ] at hno ⊢
    cases h : nextOID sortedOIDs cur with
    | none =>
      exfalso
      refine hno (endOfMibPDU cur) ?_ rfl
      simp [h]
    | some nxt =>
      simp only [h]
      simp only [h, List.mem_cons] at hno
      have := ih (mapGet vm nxt).name fun p hp => hno p (Or.inr hp)
      simp [this]

theorem bulkCursor_structure (vm : List (String × SnmpPDU))
    (sortedOIDs : List String)
    (hvm : ∀ kv ∈ vm, (kv.2).type ≠ Asn1BER.EndOfMibView) :
    ∀ (r : Nat) (cur : String),
      (∃ pre c, bulkCursor vm sortedOIDs cur r = pre ++ [endOfMibPDU c] ∧
        pre.length < r ∧ ∀ p ∈ pre, p.type ≠ Asn1BER.EndOfMibView) ∨
      ((bulkCursor vm sortedOIDs cur r).length = r ∧
        ∀ p ∈ bulkCursor vm sortedOIDs cur r,
          p.type ≠ Asn1BER.EndOfMibView) := by
  intro r
  induction r with
  | zero => intro cur; right; simp [bulkCursor_zero]
  | succ r ih =>
    intro cur
    rw [bulkCursor_succ]
    cases h : nextOID sortedOIDs cur with
    | none =>
      left
      exact ⟨[], cur, by simp, by simp, by simp⟩
    | some nxt =>
      have hval : (mapGet vm nxt).type ≠ Asn1BER.EndOfMibView := by
        unfold mapGet
        cases hlk : List.lookup nxt vm with
        | none => simp [zeroPDU]
        | some v =>
          simpa using hvm (nxt, v) (lookup_mem hlk)
      rcases ih (mapGet vm nxt).name with ⟨pre, c, heq, hlt, hpre⟩ | ⟨hlen, hno⟩
      · left
        refine ⟨mapGet vm nxt :: pre, c, ?_,
          by simpa using Nat.succ_lt_succ hlt, ?_⟩
        · simp [heq]
        · intro p hp
          rcases List.mem_cons.mp hp with rfl | hp
          · exact hval
          · exact hpre p hp
      · right
        constructor
        · simp [hlen]
        · intro p hp
          rcases List.mem_cons.mp hp with rfl | hp
          · exact hval
          · exact hno p hp

theorem bulkRepeatersLoop_eq (vm : List (String × SnmpPDU))
    (sortedOIDs : List String) (maxRepetitions : Nat) :
    ∀ (vars : List SnmpPDU) (acc : List SnmpPDU),
      bulkRepeatersLoop vm sortedOIDs maxRepetitions acc vars =
        acc ++ vars.flatMap (fun vb =>
          bulkCursor vm sortedOIDs (normalizeOID vb.name) maxRepetitions) := by
  intro vars
  induction vars with
  | nil => intro acc; simp [bulkRepeatersLoop]
  | cons vb rest ih =>
    intro acc
    simp only [bulkRepeatersLoop, List.flatMap_cons]
    rw [ih, bulkWalkLoop_acc]
    simp

theorem clampNonRepeaters_le (pkt : InPacket) :
    clampNonRepeaters pkt ≤ pkt.varBinds.length := by
  unfold clampNonRepeaters
  split <;> omega

theorem clampMaxRepetitions_pos (pkt : InPacket) :
    1 ≤ clampMaxRepetitions pkt := by
  unfold clampMaxRepetitions
  split <;> omega

theorem handleGetBulk_eq (pkt : InPacket) (vm : List (String × SnmpPDU))
    (sortedOIDs : List String) :
    handleGetBulk pkt vm sortedOIDs =
      handleGetNext (pkt.varBinds.take (clampNonRepeaters pkt))
        vm sortedOIDs ++
      (pkt.varBinds.drop (clampNonRepeaters pkt)).flatMap
        (fun vb => bulkCursor vm sortedOIDs (normalizeOID vb.name)
          (clampMaxRepetitions pkt)) := by
  unfold handleGetBulk
  rw [bulkRepeatersLoop_eq, bulkFirstLoop_eq, handleGetNext_eq_map]
  simp

theorem flatMap_length_le {α : Type} (f : α → List SnmpPDU) (r : Nat)
    (hf : ∀ a, (f a).length ≤ r) :
    ∀ l : List α, (l.flatMap f).length ≤ l.length * r := by
  intro l
  induction l with
  | nil => simp
  | cons a rest ih =>
    simp only [List.flatMap_cons, List.length_append, List.length_cons]
    have := hf a
    calc (f a).length + (rest.flatMap f).length ≤ r + rest.length * r := by
          omega
      _ = (rest.length + 1) * r := by ring

theorem flatMap_length_eq {α : Type} (f : α → List SnmpPDU) (r : Nat) :
    ∀ l : List α, (∀ a ∈ l, (f a).length = r) →
      (l.flatMap f).length = l.length * r := by
  intro l
  induction l with
  | nil => simp
  | cons a rest ih =>
    intro hf
    simp only [List.flatMap_cons, List.length_append, List.length_cons]
    rw [hf a (List.mem_cons_self _ _),
      ih fun b hb => hf b (List.mem_cons_of_mem _ hb)]
    ring

/-- Counterexample to claim C3 as stated: with an empty address table, one
repeater variable, `nonRepeaterCount = 0` and `maxRepetitions = 1`, the
tree is exhausted (an end-of-tree marker is emitted), yet the reply count
equals `k + m*r = 1` — it is not fewer. -/
theorem getBulk_count_counterexample :
    (∃ p ∈ handleGetBulk
        { version := SnmpVersionM.Version2c
          community := "public"
          pduType := PDUTypeM.GetBulkRequest
          requestID := 1
          msgID := 1
          nonRepeaters := 0
          maxRepetitions := 1
          varBinds := [⟨".1", Asn1BER.UnknownType, GoValue.vNil⟩] } [] [],
        p.type = Asn1BER.EndOfMibView) ∧
    ¬ ((handleGetBulk
        { version := SnmpVersionM.Version2c
          community := "public"
          pduType := PDUTypeM.GetBulkRequest
          requestID := 1
          msgID := 1
          nonRepeaters := 0
          maxRepetitions := 1
          varBinds := [⟨".1", Asn1BER.UnknownType, GoValue.vNil⟩] } [] []).length
      < 0 + 1 * 1) := by decide

/-- Claim C3 (amended): for every GetBulk request, with `k` the
non-repeater count clamped to the number of requested addresses and `r`
the repetition count clamped to at least 1, the reply is the GetNext-style
answers of the first `k` addresses followed by, for each remaining
address, a cursor walk of at most `r` replies; every cursor block is
non-empty, a block containing an end-of-tree marker consists of marker-free
replies terminated by exactly one marker, and the total reply count is at
most `k + m*r`, with equality whenever no end-of-tree marker occurs. -/
theorem getBulk_spec (pkt : InPacket) (vm : List (String × SnmpPDU))
    (sortedOIDs : List String)
    (hvm : ∀ kv ∈ vm, (kv.2).type ≠ Asn1BER.EndOfMibView) :
    handleGetBulk pkt vm sortedOIDs =
      handleGetNext (pkt.varBinds.take (clampNonRepeaters pkt))
        vm sortedOIDs ++
      (pkt.varBinds.drop (clampNonRepeaters pkt)).flatMap
        (fun vb => bulkCursor vm sortedOIDs (normalizeOID vb.name)
          (clampMaxRepetitions pkt)) ∧
    (handleGetNext (pkt.varBinds.take (clampNonRepeaters pkt))
        vm sortedOIDs).length = clampNonRepeaters pkt ∧
    (∀ vb : SnmpPDU,
      1 ≤ (bulkCursor vm sortedOIDs (normalizeOID vb.name)
        (clampMaxRepetitions pkt)).length ∧
      (bulkCursor vm sortedOIDs (normalizeOID vb.name)
        (clampMaxRepetitions pkt)).length ≤ clampMaxRepetitions pkt ∧
      ((∃ pre c, bulkCursor vm sortedOIDs (normalizeOID vb.name)
            (clampMaxRepetitions pkt) = pre ++ [endOfMibPDU c] ∧
          pre.length < clampMaxRepetitions pkt ∧
          ∀ p ∈ pre, p.type ≠ Asn1BER.EndOfMibView) ∨
        ((bulkCursor vm sortedOIDs (normalizeOID vb.name)
            (clampMaxRepetitions pkt)).length = clampMaxRepetitions pkt ∧
          ∀ p ∈ bulkCursor vm sortedOIDs (normalizeOID vb.name)
            (clampMaxRepetitions pkt),
            p.type ≠ Asn1BER.EndOfMibView))) ∧
    (handleGetBulk pkt vm sortedOIDs).length ≤
      clampNonRepeaters pkt +
        (pkt.varBinds.length - clampNonRepeaters pkt) *
          clampMaxRepetitions pkt ∧
    ((∀ p ∈ handleGetBulk pkt vm sortedOIDs,
        p.type ≠ Asn1BER.EndOfMibView) →
      (handleGetBulk pkt vm sortedOIDs).length =
        clampNonRepeaters pkt +
          (pkt.varBinds.length - clampNonRepeaters pkt) *
            clampMaxRepetitions pkt) := by
  have hr1 : 1 ≤ clampMaxRepetitions pkt := clampMaxRepetitions_pos pkt
  have hkle : clampNonRepeaters pkt ≤ pkt.varBinds.length :=
    clampNonRepeaters_le pkt
  have heq := handleGetBulk_eq pkt vm sortedOIDs
  have hfirstlen : (handleGetNext
      (pkt.varBinds.take (clampNonRepeaters pkt)) vm sortedOIDs).length =
      clampNonRepeaters pkt := by
    rw [handleGetNext_eq_map, List.length_map, List.length_take]
    omega
  refine ⟨heq, hfirstlen, ?_, ?_, ?_⟩
  · intro vb
    refine ⟨?_, bulkCursor_length_le vm sortedOIDs _ _,
      bulkCursor_structure vm sortedOIDs hvm _ _⟩
    obtain ⟨r0, hr0⟩ : ∃ r0, clampMaxRepetitions pkt = r0 + 1 :=
      ⟨clampMaxRepetitions pkt - 1, by omega⟩
    rw [hr0]
    exact bulkCursor_length_pos vm sortedOIDs r0 _
  · rw [heq, List.length_append, hfirstlen]
    refine Nat.add_le_add_left ?_ _
    have hb := flatMap_length_le
      (fun vb => bulkCursor vm sortedOIDs (normalizeOID vb.name)
        (clampMaxRepetitions pkt))
      (clampMaxRepetitions pkt)
      (fun vb => bulkCursor_length_le vm sortedOIDs _ _)
      (pkt.varBinds.drop (clampNonRepeaters pkt))
    simpa [List.length_drop] using hb
  · intro hno
    rw [heq] at hno ⊢
    rw [List.length_append, hfirstlen]
    have hfull : ∀ vb ∈ pkt.varBinds.drop (clampNonRepeaters pkt),
        (bulkCursor vm sortedOIDs (normalizeOID vb.name)
          (clampMaxRepetitions pkt)).length = clampMaxRepetitions pkt := by
      intro vb hvb
      apply bulkCursor_full_of_no_eom
      intro p hp
      refine hno p (List.mem_append_right _ ?_)
      exact List.mem_flatMap.mpr ⟨vb, hvb, hp⟩

    have hb := flatMap_length_eq
      (fun vb => bulkCursor vm sortedOIDs (normalizeOID vb.name)
        (clampMaxRepetitions pkt))
      (clampMaxRepetitions pkt)
      (pkt.varBinds.drop (clampNonRepeaters pkt)) hfull
    rw [List.length_drop] at hb
    rw [hb]

/-- Witness for the amended C3 on a concrete two-entry table. -/
theorem getBulk_spec_witness :
    (∀ kv ∈ [(".1.3.1.0", gaugePDU ".1.3.1.0" 7),
             (".1.3.2.0", gaugePDU ".1.3.2.0" 9)],
      (kv.2).type ≠ Asn1BER.EndOfMibView) ∧
    (handleGetBulk
      { version := SnmpVersionM.Version2c
        community := "public"
        pduType := PDUTypeM.GetBulkRequest
        requestID := 1
        msgID := 1
        nonRepeaters := 1
        maxRepetitions := 3
        varBinds := [⟨".1.3.1.0", Asn1BER.UnknownType, GoValue.vNil⟩,
                     ⟨".1.3", Asn1BER.UnknownType, GoValue.vNil⟩] }
      [(".1.3.1.0", gaugePDU ".1.3.1.0" 7),
       (".1.3.2.0", gaugePDU ".1.3.2.0" 9)]
      [".1.3.1.0", ".1.3.2.0"]).length ≤ 1 + 1 * 3 := by
  refine ⟨by decide, ?_⟩
  have h := (getBulk_spec
      { version := SnmpVersionM.Version2c
        community := "public"
        pduType := PDUTypeM.GetBulkRequest
        requestID := 1
        msgID := 1
        nonRepeaters := 1
        maxRepetitions := 3
        varBinds := [⟨".1.3.1.0", Asn1BER.UnknownType, GoValue.vNil⟩,
                     ⟨".1.3", Asn1BER.UnknownType, GoValue.vNil⟩] }
      [(".1.3.1.0", gaugePDU ".1.3.1.0" 7),
       (".1.3.2.0", gaugePDU ".1.3.2.0" 9)]
      [".1.3.1.0", ".1.3.2.0"] (by decide)).2.2.2.1
  simpa using h

theorem write_cache (s : SNMPState) (r : TestRec) :
    (s.write r).cache =
      (if s.maxSize ≤ s.cache.length then s.cache.drop 1 else s.cache)
        ++ [r] := rfl

theorem write_maxSize (s : SNMPState) (r : TestRec) :
    (s.write r).maxSize = s.maxSize := rfl

theorem write_community (s : SNMPState) (r : TestRec) :
    (s.write r).community = s.community := rfl

theorem write_enterpriseOID (s : SNMPState) (r : TestRec) :
    (s.write r).enterpriseOID = s.enterpriseOID := rfl

theorem writeAll_cons (s : SNMPState) (r : TestRec) (rs : List TestRec) :
    writeAll s (r :: rs) = writeAll (s.write r) rs := rfl

theorem writeAll_append (s : SNMPState) (l1 l2 : List TestRec) :
    writeAll s (l1 ++ l2) = writeAll (writeAll s l1) l2 :=
  List.foldl_append ..

theorem writeAll_cache :
    ∀ (rs : List TestRec) (s : SNMPState), s.maxSize = 100 →
      s.cache.length ≤ 100 →
      (writeAll s rs).cache =
        (s.cache ++ rs).drop (s.cache.length + rs.length - 100) := by
  intro rs
  induction rs with
  | nil =>
    intro s h100 hle
    have h0 : s.cache.length + ([] : List TestRec).length - 100 = 0 := by
      simp; omega
    rw [h0]
    simp [writeAll]
  | cons r rest ih =>
    intro s h100 hle
    rw [writeAll_cons]
    have hm : (s.write r).maxSize = 100 := by rw [write_maxSize, h100]
    by_cases hful : 100 ≤ s.cache.length
    · have hlen : s.cache.length = 100 := le_antisymm hle hful
      have hc : (s.write r).cache = s.cache.drop 1 ++ [r] := by
        rw [write_cache, if_pos (by omega)]
      have hble : (s.write r).cache.length ≤ 100 := by
        rw [hc]
        simp only [List.length_append, List.length_drop, List.length_cons,
          List.length_nil]
        omega
      rw [ih _ hm hble, hc]
      have hidx1 : (s.cache.drop 1 ++ [r]).length + rest.length - 100 =
          rest.length := by
        simp only [List.length_append, List.length_drop, List.length_cons,
          List.length_nil, hlen]
        omega
      rw [hidx1]
      have hidx2 : s.cache.length + (r :: rest).length - 100 =
          rest.length + 1 := by
        simp only [List.length_cons, hlen]
        omega
      rw [hidx2]
      have hl : s.cache.drop 1 ++ [r] ++ rest =
          s.cache.drop 1 ++ (r :: rest) := by simp
      rw [hl]
      have hd1 : (s.cache ++ r :: rest).drop (rest.length + 1) =
          ((s.cache ++ r :: rest).drop 1).drop rest.length := by
        rw [List.drop_drop]
        congr 1
        omega
      have hinner : (s.cache ++ r :: rest).drop 1 =
          s.cache.drop 1 ++ r :: rest :=
        List.drop_append_of_le_length (by omega)
      rw [hd1, hinner]
    · have hc : (s.write r).cache = s.cache ++ [r] := by
        rw [write_cache, if_neg (by omega)]
      have hble : (s.write r).cache.length ≤ 100 := by
        rw [hc]
        simp only [List.length_append, List.length_cons, List.length_nil]
        omega
      rw [ih _ hm hble, hc]
      have hl : s.cache ++ [r] ++ rest = s.cache ++ r :: rest := by simp
      rw [hl]
      congr 1
      simp only [List.length_append, List.length_cons, List.length_nil]
      omega

/-- Claim C5: starting from the initial state (capacity 100), after any
sequence of `Write` calls the history buffer is exactly the suffix of the
written records of length at most 100: its length never exceeds 100, and
at capacity each write evicts exactly the single oldest record, keeping
the survivors in order (strict FIFO). -/
theorem historyBuffer_fifo (cfg : SNMPConfigM) (rs : List TestRec) :
    (writeAll (initState cfg) rs).cache.length ≤ 100 ∧
    (writeAll (initState cfg) rs).cache = rs.drop (rs.length - 100) := by
  have h := writeAll_cache rs (initState cfg) rfl (by simp [initState])
  have h2 : (writeAll (initState cfg) rs).cache = rs.drop (rs.length - 100) := by
    simpa [initState] using h
  refine ⟨?_, h2⟩
  rw [h2]
  simp only [List.length_drop]
  omega

/-- First-occurrence deduplication with an accumulator of already-seen
keys: the distinct site keys in first-seen order. -/
def firstSeenAux (seen : List String) : List String → List String
  | [] => []
  | x :: xs =>
    if x ∈ seen then firstSeenAux seen xs
    else x :: firstSeenAux (x :: seen) xs

/-- The distinct elements of a list in first-seen order. -/
def firstSeenL (l : List String) : List String := firstSeenAux [] l

theorem mem_firstSeenAux :
    ∀ (l : List String) (seen : List String) (x : String),
      x ∈ firstSeenAux seen l ↔ (x ∈ l ∧ x ∉ seen) := by
  intro l
  induction l with
  | nil => intro seen x; simp [firstSeenAux]
  | cons y ys ih =>
    intro seen x
    by_cases hy : y ∈ seen
    · rw [firstSeenAux, if_pos hy, ih]
      constructor
      · rintro ⟨hx, hns⟩
        exact ⟨List.mem_cons_of_mem _ hx, hns⟩
      · rintro ⟨hx, hns⟩
        rcases List.mem_cons.mp hx with rfl | hx
        · exact absurd hy hns
        · exact ⟨hx, hns⟩
    · rw [firstSeenAux, if_neg hy]
      constructor
      · intro hx
        rcases List.mem_cons.mp hx with rfl | hx
        · exact ⟨List.mem_cons_self _ _, hy⟩
        · obtain ⟨h1, h2⟩ := (ih _ _).mp hx
          refine ⟨List.mem_cons_of_mem _ h1, ?_⟩
          intro hc
          exact h2 (List.mem_cons_of_mem _ hc)
      · rintro ⟨hx, hns⟩
        rcases List.mem_cons.mp hx with rfl | hx
        · exact List.mem_cons_self _ _
        · by_cases hxy : x = y
          · subst hxy; exact List.mem_cons_self _ _
          · refine List.mem_cons_of_mem _ ((ih _ _).mpr ⟨hx, ?_⟩)
            intro hc
            rcases List.mem_cons.mp hc with h | h
            · exact hxy h
            · exact hns h

theorem mem_firstSeenL (l : List String) (x : String) :
    x ∈ firstSeenL l ↔ x ∈ l := by
  rw [firstSeenL, mem_firstSeenAux]
  simp

theorem firstSeenAux_snoc :
    ∀ (l : List String) (seen : List String) (x : String),
      firstSeenAux seen (l ++ [x]) =
        firstSeenAux seen l ++ (if x ∈ seen ∨ x ∈ l then [] else [x]) := by
  intro l
  induction l with
  | nil =>
    intro seen x
    by_cases hx : x ∈ seen
    · simp [firstSeenAux, hx]
    · simp [firstSeenAux, hx]
  | cons y ys ih =>
    intro seen x
    by_cases hy : y ∈ seen
    · rw [List.cons_append, firstSeenAux, if_pos hy, firstSeenAux, if_pos hy,
        ih]
      congr 1
      refine if_congr ?_ rfl rfl
      constructor
      · rintro (h | h)
        · exact Or.inl h
        · exact Or.inr (List.mem_cons_of_mem _ h)
      · rintro (h | h)
        · exact Or.inl h
        · rcases List.mem_cons.mp h with rfl | h
          · exact Or.inl hy
          · exact Or.inr h
    · rw [List.cons_append, firstSeenAux, if_neg hy, firstSeenAux, if_neg hy,
        ih (y :: seen) x]
      have hcond : (x ∈ y :: seen ∨ x ∈ ys) = (x ∈ seen ∨ x ∈ y :: ys) := by
        refine propext ⟨?_, ?_⟩
        · rintro (h | h)
          · rcases List.mem_cons.mp h with rfl | h
            · exact Or.inr (List.mem_cons_self _ _)
            · exact Or.inl h
          · exact Or.inr (List.mem_cons_of_mem _ h)
        · rintro (h | h)
          · exact Or.inl (List.mem_cons_of_mem _ h)
          · rcases List.mem_cons.mp h with rfl | h
            · exact Or.inl (List.mem_cons_self _ _)
            · exact Or.inr h
      simp only [hcond, List.cons_append]

theorem firstSeenL_snoc (l : List String) (x : String) :
    firstSeenL (l ++ [x]) =
      firstSeenL l ++ (if x ∈ l then [] else [x]) := by
  rw [firstSeenL, firstSeenAux_snoc]
  simp [firstSeenL]

theorem firstSeenAux_nodup :
    ∀ (l : List String) (seen : List String),
      (firstSeenAux seen l).Nodup := by
  intro l
  induction l with
  | nil => intro seen; simp [firstSeenAux]
  | cons y ys ih =>
    intro seen
    by_cases hy : y ∈ seen
    · rw [firstSeenAux, if_pos hy]; exact ih _
    · rw [firstSeenAux, if_neg hy]
      refine List.nodup_cons.mpr ⟨?_, ih _⟩
      intro hc
      exact ((mem_firstSeenAux _ _ _).mp hc).2 (List.mem_cons_self _ _)

theorem firstSeenL_nodup (l : List String) : (firstSeenL l).Nodup :=
  firstSeenAux_nodup l []

theorem firstSeenAux_length_le :
    ∀ (l : List String) (seen : List String),
      (firstSeenAux seen l).length ≤ l.length := by
  intro l
  induction l with
  | nil => intro seen; simp [firstSeenAux]
  | cons y ys ih =>
    intro seen
    by_cases hy : y ∈ seen
    · rw [firstSeenAux, if_pos hy]
      exact le_trans (ih _) (by simp)
    · rw [firstSeenAux, if_neg hy]
      simpa using ih (y :: seen)

theorem firstSeenL_length_le (l : List String) :
    (firstSeenL l).length ≤ l.length :=
  firstSeenAux_length_le l []

/-- `(name, start), (name2, start+1), ...`: consecutive indices paired to
names. -/
def enumPairs (start : Int) : List String → List (String × Int)
  | [] => []
  | n :: ns => (n, start) :: enumPairs (start + 1) ns

theorem enumPairs_snoc :
    ∀ (l : List String) (start : Int) (x : String),
      enumPairs start (l ++ [x]) =
        enumPairs start l ++ [(x, start + l.length)] := by
  intro l
  induction l with
  | nil => intro start x; simp [enumPairs]
  | cons y ys ih =>
    intro start x
    rw [List.cons_append, enumPairs, ih, enumPairs]
    simp
    ring

theorem enumPairs_map_fst :
    ∀ (l : List String) (start : Int),
      (enumPairs start l).map Prod.fst = l := by
  intro l
  induction l with
  | nil => intro start; simp [enumPairs]
  | cons y ys ih => intro start; simp [enumPairs, ih]

theorem enumPairs_length (l : List String) (start : Int) :
    (enumPairs start l).length = l.length := by
  have := enumPairs_map_fst l start
  calc (enumPairs start l).length = ((enumPairs start l).map Prod.fst).length
        := by simp
    _ = l.length := by rw [this]

theorem enumPairs_lookup_ge :
    ∀ (l : List String) (start : Int) (n : String) (i : Int),
      List.lookup n (enumPairs start l) = some i → start ≤ i := by
  intro l
  induction l with
  | nil => intro start n i h; cases h
  | cons y ys ih =>
    intro start n i h
    rw [enumPairs, List.lookup_cons] at h
    cases hn : (n == y) with
    | true =>
      rw [hn] at h
      simp only [Option.some.injEq] at h
      omega
    | false =>
      rw [hn] at h
      have := ih (start + 1) n i h
      omega

theorem enumPairs_lookup_inj :
    ∀ (l : List String) (start : Int) (n1 n2 : String) (i : Int),
      List.lookup n1 (enumPairs start l) = some i →
      List.lookup n2 (enumPairs start l) = some i → n1 = n2 := by
  intro l
  induction l with
  | nil => intro start n1 n2 i h; cases h
  | cons y ys ih =>
    intro start n1 n2 i h1 h2
    rw [enumPairs, List.lookup_cons] at h1 h2
    cases hn1 : (n1 == y) with
    | true =>
      rw [hn1] at h1
      simp only [Option.some.injEq] at h1
      cases hn2 : (n2 == y) with
      | true => rw [eq_of_beq hn1, eq_of_beq hn2]
      | false =>
        rw [hn2] at h2
        have := enumPairs_lookup_ge ys (start + 1) n2 i h2
        omega
    | false =>
      rw [hn1] at h1
      cases hn2 : (n2 == y) with
      | true =>
        rw [hn2] at h2
        simp only [Option.some.injEq] at h2
        have := enumPairs_lookup_ge ys (start + 1) n1 i h1
        omega
      | false =>
        rw [hn2] at h2
        exact ih (start + 1) n1 n2 i h1 h2

theorem enumPairs_lookup_get :
    ∀ (l : List String), l.Nodup → ∀ (start : Int) (j : Nat) (h : j < l.length),
      List.lookup (l.get ⟨j, h⟩) (enumPairs start l) = some (start + j) := by
  intro l
  induction l with
  | nil => intro _ start j h; cases h
  | cons y ys ih =>
    intro hnd start j h
    rcases List.nodup_cons.mp hnd with ⟨hy, hnd2⟩
    cases j with
    | zero =>
      simp [enumPairs, List.lookup_cons]
    | succ j0 =>
      have hget : (y :: ys).get ⟨j0 + 1, h⟩ = ys.get ⟨j0, by simpa using h⟩ :=
        rfl
      rw [hget, enumPairs, List.lookup_cons]
      have hne : (ys.get ⟨j0, by simpa using h⟩ == y) = false := by
        refine beq_eq_false_iff_ne.mpr ?_
        intro hc
        exact hy (hc ▸ List.get_mem ys j0 (by simpa using h))
      rw [hne]
      rw [ih hnd2 (start + 1) j0 (by simpa using h)]
      simp only [Option.some.injEq]
      push_cast
      ring

theorem lookup_append {β : Type} (l1 l2 : List (String × β)) (k : String) :
    List.lookup k (l1 ++ l2) =
      match List.lookup k l1 with
      | some v => some v
      | none => List.lookup k l2 := by
  induction l1 with
  | nil => simp
  | cons p rest ih =>
    rw [List.cons_append, List.lookup_cons, List.lookup_cons]
    cases hk : (k == p.1) with
    | true => simp
    | false => simpa using ih

theorem lookup_isSome_iff {β : Type} (l : List (String × β)) (k : String) :
    (List.lookup k l).isSome ↔ k ∈ l.map Prod.fst := by
  induction l with
  | nil => simp
  | cons p rest ih =>
    rw [List.lookup_cons]
    cases hk : (k == p.1) with
    | true =>
      have : k = p.1 := eq_of_beq hk
      simp [this]
    | false =>
      have : k ≠ p.1 := by
        intro hc
        rw [hc] at hk
        simp at hk
      simp [ih, this]

theorem lookup_eq_none_iff {β : Type} (l : List (String × β)) (k : String) :
    List.lookup k l = none ↔ k ∉ l.map Prod.fst := by
  rw [← lookup_isSome_iff]
  cases List.lookup k l <;> simp

theorem updateAssoc_map_fst (m : List (String × SiteStats)) (k : String)
    (f : SiteStats → SiteStats) :
    (updateAssoc m k f).map Prod.fst = m.map Prod.fst := by
  induction m with
  | nil => rfl
  | cons p rest ih =>
    simp only [updateAssoc, List.map_cons] at ih ⊢
    by_cases hp : p.1 = k
    · simp [hp, ih]
    · simp [hp, ih]

theorem lookup_updateAssoc_self (m : List (String × SiteStats)) (k : String)
    (f : SiteStats → SiteStats) :
    List.lookup k (updateAssoc m k f) = (List.lookup k m).map f := by
  induction m with
  | nil => rfl
  | cons p rest ih =>
    obtain ⟨a, b⟩ := p
    by_cases hp : a = k
    · have hk : (k == a) = true := by rw [hp]; exact beq_self_eq_true k
      simp only [updateAssoc, List.map_cons, if_pos hp, List.lookup_cons, hk]
      simp
    · have hk : (k == a) = false :=
        beq_eq_false_iff_ne.mpr fun hc => hp hc.symm
      simp only [updateAssoc, List.map_cons, if_neg hp, List.lookup_cons, hk]
      simpa [updateAssoc] using ih

theorem lookup_updateAssoc_ne (m : List (String × SiteStats)) (k : String)
    (f : SiteStats → SiteStats) (n : String) (hn : n ≠ k) :
    List.lookup n (updateAssoc m k f) = List.lookup n m := by
  induction m with
  | nil => rfl
  | cons p rest ih =>
    obtain ⟨a, b⟩ := p
    by_cases hp : a = k
    · have hk : (n == a) = false :=
        beq_eq_false_iff_ne.mpr fun hc => hn (hc.trans hp)
      simp only [updateAssoc, List.map_cons, if_pos hp, List.lookup_cons, hk]
      simpa [updateAssoc] using ih
    · simp only [updateAssoc, List.map_cons, if_neg hp, List.lookup_cons]
      cases hk : (n == a) with
      | true => simp
      | false => simpa [updateAssoc] using ih

theorem updateStats_totalTests (st : SiteStats) (r : TestRec) :
    (updateStats st r).totalTests = st.totalTests + 1 := rfl

theorem updateStats_avg (st : SiteStats) (r : TestRec) :
    (updateStats st r).avgDurationMs =
      (st.avgDurationMs * (st.totalTests : ℚ) + (r.totalDurationMs : ℚ)) /
        ((st.totalTests : ℚ) + 1) := by
  show (st.avgDurationMs * (((st.totalTests + 1 : Int) : ℚ) - 1) +
      (r.totalDurationMs : ℚ)) / ((st.totalTests + 1 : Int) : ℚ) = _
  congr 1
  · push_cast
    ring
  · push_cast
    ring

/-- The durations of the records written for site `name`, in order. -/
def siteDurations (pre : List TestRec) (name : String) : List Int :=
  (pre.filter fun r => siteKeyOf r == name).map fun r => r.totalDurationMs

theorem siteDurations_snoc_eq (pre : List TestRec) (r : TestRec)
    (name : String) (h : siteKeyOf r = name) :
    siteDurations (pre ++ [r]) name =
      siteDurations pre name ++ [r.totalDurationMs] := by
  unfold siteDurations
  rw [List.filter_append]
  have : (siteKeyOf r == name) = true := by rw [h]; exact beq_self_eq_true _
  simp [List.filter_cons, this]

theorem siteDurations_snoc_ne (pre : List TestRec) (r : TestRec)
    (name : String) (h : siteKeyOf r ≠ name) :
    siteDurations (pre ++ [r]) name = siteDurations pre name := by
  unfold siteDurations
  rw [List.filter_append]
  have : (siteKeyOf r == name) = false := beq_eq_false_iff_ne.mpr h
  simp [List.filter_cons, this]

theorem siteDurations_nil_of_not_mem (pre : List TestRec) (name : String)
    (h : name ∉ pre.map siteKeyOf) : siteDurations pre name = [] := by
  unfold siteDurations
  induction pre with
  | nil => rfl
  | cons q qs ih =>
    simp only [List.map_cons, List.mem_cons] at h
    push_neg at h
    have hq : (siteKeyOf q == name) = false :=
      beq_eq_false_iff_ne.mpr fun hc => h.1 hc.symm
    simp only [List.filter_cons, hq]
    exact ih h.2

/-- The invariant tying a reachable store state to the sequence of records
written so far. -/
structure StoreInv (cfg : SNMPConfigM) (pre : List TestRec)
    (s : SNMPState) : Prop where
  maxSizeEq : s.maxSize = 100
  commEq : s.community = cfg.community
  oidEq : s.enterpriseOID = cfg.enterpriseOID
  statsKeys : s.stats.map Prod.fst = firstSeenL (pre.map siteKeyOf)
  siteIdx : s.siteIndex = enumPairs 1 (firstSeenL (pre.map siteKeyOf))
  nextIdx : s.nextSiteIndex = ((firstSeenL (pre.map siteKeyOf)).length : Int)
  statsSpec : ∀ name st, List.lookup name s.stats = some st →
    st.totalTests = ((siteDurations pre name).length : Int) ∧
    0 < (siteDurations pre name).length ∧
    st.avgDurationMs =
      ((siteDurations pre name).sum : ℚ) /
        ((siteDurations pre name).length : ℚ)

theorem write_stats_eq (s : SNMPState) (r : TestRec) :
    (s.write r).stats =
      updateAssoc
        (if (List.lookup (siteKeyOf r) s.stats).isNone
         then s.stats ++ [(siteKeyOf r, freshStats r)] else s.stats)
        (siteKeyOf r) (fun st => updateStats st r) := rfl

theorem write_siteIndex_eq (s : SNMPState) (r : TestRec) :
    (s.write r).siteIndex =
      if (List.lookup (siteKeyOf r) s.stats).isNone ∧
          (List.lookup (siteKeyOf r) s.siteIndex).isNone
      then s.siteIndex ++ [(siteKeyOf r, s.nextSiteIndex + 1)]
      else s.siteIndex := rfl

theorem write_nextSiteIndex_eq (s : SNMPState) (r : TestRec) :
    (s.write r).nextSiteIndex =
      if (List.lookup (siteKeyOf r) s.stats).isNone ∧
          (List.lookup (siteKeyOf r) s.siteIndex).isNone
      then s.nextSiteIndex + 1
      else s.nextSiteIndex := rfl

theorem storeInv_init (cfg : SNMPConfigM) :
    StoreInv cfg [] (initState cfg) := by
  refine ⟨rfl, rfl, rfl, rfl, rfl, rfl, ?_⟩
  intro name st h
  cases h

theorem storeInv_write {cfg : SNMPConfigM} {pre : List TestRec}
    {s : SNMPState} (h : StoreInv cfg pre s) (r : TestRec) :
    StoreInv cfg (pre ++ [r]) (s.write r) := by
  obtain ⟨hmax, hcomm, hoid, hkeys, hidx, hnext, hspec⟩ := h
  have hmapsnoc : (pre ++ [r]).map siteKeyOf =
      pre.map siteKeyOf ++ [siteKeyOf r] := by simp
  by_cases hmem : siteKeyOf r ∈ pre.map siteKeyOf
  · -- existing site: stats and siteIndex keys unchanged
    have hlkSome : (List.lookup (siteKeyOf r) s.stats).isSome := by
      rw [lookup_isSome_iff, hkeys, mem_firstSeenL]
      exact hmem
    have hNone : (List.lookup (siteKeyOf r) s.stats).isNone = false := by
      cases hx : List.lookup (siteKeyOf r) s.stats
      · rw [hx] at hlkSome; cases hlkSome
      · rfl
    have hnames : firstSeenL ((pre ++ [r]).map siteKeyOf) =
        firstSeenL (pre.map siteKeyOf) := by
      rw [hmapsnoc, firstSeenL_snoc, if_pos hmem]
      simp
    refine ⟨(write_maxSize s r).trans hmax, (write_community s r).trans hcomm,
      (write_enterpriseOID s r).trans hoid, ?_, ?_, ?_, ?_⟩
    · rw [write_stats_eq, hNone]
      simp only [Bool.false_eq_true, if_false]
      rw [updateAssoc_map_fst, hkeys, hnames]
    · rw [write_siteIndex_eq, hnames]
      rw [if_neg (by simp [hNone])]
      exact hidx
    · rw [write_nextSiteIndex_eq, hnames]
      rw [if_neg (by simp [hNone])]
      exact hnext
    · intro name st hlk
      rw [write_stats_eq, hNone] at hlk
      simp only [Bool.false_eq_true, if_false] at hlk
      by_cases hn : name = siteKeyOf r
      · subst hn
        rw [lookup_updateAssoc_self] at hlk
        obtain ⟨stOld, hOld, hf⟩ := Option.map_eq_some'.mp hlk
        obtain ⟨hTot, hPos, hAvg⟩ := hspec (siteKeyOf r) stOld hOld
        have hds : siteDurations (pre ++ [r]) (siteKeyOf r) =
            siteDurations pre (siteKeyOf r) ++ [r.totalDurationMs] :=
          siteDurations_snoc_eq pre r (siteKeyOf r) rfl
        subst hf
        have hlen : ((siteDurations (pre ++ [r]) (siteKeyOf r)).length : Int) =
            ((siteDurations pre (siteKeyOf r)).length : Int) + 1 := by
          rw [hds]; simp
        refine ⟨?_, ?_, ?_⟩
        · rw [updateStats_totalTests, hTot, hlen]
        · rw [hds]; simp
        · rw [updateStats_avg, hTot, hAvg, hds]
          have hnz : ((siteDurations pre (siteKeyOf r)).length : ℚ) ≠ 0 := by
            exact_mod_cast Nat.pos_iff_ne_zero.mp hPos
          push_cast [List.sum_append]
          rw [div_mul_cancel₀ _ hnz]
          simp
      · rw [lookup_updateAssoc_ne _ _ _ _ hn] at hlk
        have hds : siteDurations (pre ++ [r]) name = siteDurations pre name :=
          siteDurations_snoc_ne pre r name fun hc => hn hc.symm
        rw [hds]
        exact hspec name st hlk
  · -- new site: a fresh aggregate and a fresh index are appended
    have hlkNone : List.lookup (siteKeyOf r) s.stats = none := by
      rw [lookup_eq_none_iff, hkeys, mem_firstSeenL]
      exact hmem
    have hlkNone2 : List.lookup (siteKeyOf r) s.siteIndex = none := by
      rw [lookup_eq_none_iff, hidx, enumPairs_map_fst]
      rw [mem_firstSeenL]
      exact hmem
    have hnames : firstSeenL ((pre ++ [r]).map siteKeyOf) =
        firstSeenL (pre.map siteKeyOf) ++ [siteKeyOf r] := by
      rw [hmapsnoc, firstSeenL_snoc, if_neg hmem]
    refine ⟨(write_maxSize s r).trans hmax, (write_community s r).trans hcomm,
      (write_enterpriseOID s r).trans hoid, ?_, ?_, ?_, ?_⟩
    · rw [write_stats_eq, hlkNone]
      simp only [Option.isNone_none, if_true]
      rw [updateAssoc_map_fst, hnames]
      simp [hkeys]
    · rw [write_siteIndex_eq, hnames]
      rw [if_pos (by simp [hlkNone, hlkNone2])]
      rw [enumPairs_snoc, hidx, hnext]
      have : (1 : Int) + (firstSeenL (pre.map siteKeyOf)).length =
          ((firstSeenL (pre.map siteKeyOf)).length : Int) + 1 := by ring
      rw [this]
    · rw [write_nextSiteIndex_eq, hnames]
      rw [if_pos (by simp [hlkNone, hlkNone2])]
      rw [hnext]
      simp
    · intro name st hlk
      rw [write_stats_eq, hlkNone] at hlk
      simp only [Option.isNone_none, if_true] at hlk
      by_cases hn : name = siteKeyOf r
      · subst hn
        rw [lookup_updateAssoc_self, lookup_append, hlkNone] at hlk
        simp only [List.lookup_cons, beq_self_eq_true, Option.map_some',
          Option.some.injEq] at hlk
        subst hlk
        have hds : siteDurations (pre ++ [r]) (siteKeyOf r) =
            [r.totalDurationMs] := by
          rw [siteDurations_snoc_eq pre r _ rfl,
            siteDurations_nil_of_not_mem pre _ hmem]
          rfl
        refine ⟨?_, ?_, ?_⟩
        · rw [updateStats_totalTests, hds]
          simp [freshStats]
        · rw [hds]
          simp
        · rw [updateStats_avg, hds]
          simp [freshStats]
      · rw [lookup_updateAssoc_ne _ _ _ _ hn, lookup_append] at hlk
        have hds : siteDurations (pre ++ [r]) name = siteDurations pre name :=
          siteDurations_snoc_ne pre r name fun hc => hn hc.symm
        rw [hds]
        cases hx : List.lookup name s.stats with
        | some stOld =>
          rw [hx] at hlk
          simp only [Option.some.injEq] at hlk
          subst hlk
          exact hspec name stOld hx
        | none =>
          rw [hx] at hlk
          have hne : (name == siteKeyOf r) = false := beq_eq_false_iff_ne.mpr hn
          simp only [List.lookup_cons, hne] at hlk
          cases hlk

theorem storeInv_writeAll {cfg : SNMPConfigM} :
    ∀ (rs : List TestRec) (pre : List TestRec) (s : SNMPState),
      StoreInv cfg pre s → StoreInv cfg (pre ++ rs) (writeAll s rs) := by
  intro rs
  induction rs with
  | nil => intro pre s h; simpa [writeAll] using h
  | cons r rest ih =>
    intro pre s h
    rw [writeAll_cons]
    have h2 := ih (pre ++ [r]) (s.write r) (storeInv_write h r)
    simpa using h2

theorem storeInv_reached (cfg : SNMPConfigM) (rs : List TestRec) :
    StoreInv cfg rs (writeAll (initState cfg) rs) := by
  simpa using storeInv_writeAll rs [] (initState cfg) (storeInv_init cfg)

/-- Witness for C5. -/
theorem historyBuffer_fifo_witness :
    (writeAll (initState ⟨"public", ".1.3.6.1.4.1.55555"⟩)
      [⟨some 1000, "example.com", "https://example.com", true, 150⟩,
       ⟨some 1001, "example.com", "https://example.com", false, 320⟩]).cache.length
      ≤ 100 :=
  (historyBuffer_fifo ⟨"public", ".1.3.6.1.4.1.55555"⟩
    [⟨some 1000, "example.com", "https://example.com", true, 150⟩,
     ⟨some 1001, "example.com", "https://example.com", false, 320⟩]).1

theorem write_siteIndex_lookup_mono (s : SNMPState) (r : TestRec)
    (name : String) (i : Int)
    (h : List.lookup name s.siteIndex = some i) :
    List.lookup name (s.write r).siteIndex = some i := by
  rw [write_siteIndex_eq]
  split
  · rw [lookup_append, h]
  · exact h

theorem writeAll_siteIndex_lookup_mono :
    ∀ (more : List TestRec) (s : SNMPState) (name : String) (i : Int),
      List.lookup name s.siteIndex = some i →
      List.lookup name (writeAll s more).siteIndex = some i := by
  intro more
  induction more with
  | nil => intro s name i h; exact h
  | cons r rest ih =>
    intro s name i h
    rw [writeAll_cons]
    exact ih _ name i (write_siteIndex_lookup_mono s r name i h)

/-- Claim C6: SiteIndex assignment is exactly the enumeration of the
distinct site keys in first-seen order starting at 1: the j-th distinct
site (0-based) gets index j+1; the map is injective into the positive
integers, and an index, once assigned, survives every later write — so
repeated snapshot builds expose the same index for the same site. -/
theorem siteIndex_first_seen (cfg : SNMPConfigM) (rs : List TestRec) :
    (writeAll (initState cfg) rs).siteIndex =
      enumPairs 1 (firstSeenL (rs.map siteKeyOf)) ∧
    (∀ (j : Nat) (h : j < (firstSeenL (rs.map siteKeyOf)).length),
      List.lookup ((firstSeenL (rs.map siteKeyOf)).get ⟨j, h⟩)
        (writeAll (initState cfg) rs).siteIndex = some ((j : Int) + 1)) ∧
    (∀ (n1 n2 : String) (i : Int),
      List.lookup n1 (writeAll (initState cfg) rs).siteIndex = some i →
      List.lookup n2 (writeAll (initState cfg) rs).siteIndex = some i →
      n1 = n2) ∧
    (∀ (name : String) (i : Int),
      List.lookup name (writeAll (initState cfg) rs).siteIndex = some i →
      1 ≤ i) ∧
    (∀ (name : String) (i : Int) (more : List TestRec),
      List.lookup name (writeAll (initState cfg) rs).siteIndex = some i →
      List.lookup name (writeAll (initState cfg) (rs ++ more)).siteIndex =
        some i) := by
  have hidx := (storeInv_reached cfg rs).siteIdx
  refine ⟨hidx, ?_, ?_, ?_, ?_⟩
  · intro j h
    rw [hidx]
    rw [enumPairs_lookup_get _ (firstSeenL_nodup _) 1 j h]
    congr 1
    ring
  · intro n1 n2 i h1 h2
    rw [hidx] at h1 h2
    exact enumPairs_lookup_inj _ 1 n1 n2 i h1 h2
  · intro name i h
    rw [hidx] at h
    exact enumPairs_lookup_ge _ 1 name i h
  · intro name i more h
    rw [writeAll_append]
    exact writeAll_siteIndex_lookup_mono more _ name i h

/-- Witness for C6. -/
theorem siteIndex_first_seen_witness :
    (writeAll (initState ⟨"public", ".1.3.6.1.4.1.55555"⟩)
      [⟨some 1000, "a", "https://a", true, 150⟩,
       ⟨some 1001, "b", "https://b", false, 320⟩,
       ⟨some 1002, "a", "https://a", true, 100⟩]).siteIndex =
      enumPairs 1 (firstSeenL
        ([⟨some 1000, "a", "https://a", true, 150⟩,
          ⟨some 1001, "b", "https://b", false, 320⟩,
          ⟨some 1002, "a", "https://a", true, 100⟩].map siteKeyOf)) :=
  (siteIndex_first_seen ⟨"public", ".1.3.6.1.4.1.55555"⟩
    [⟨some 1000, "a", "https://a", true, 150⟩,
     ⟨some 1001, "b", "https://b", false, 320⟩,
     ⟨some 1002, "a", "https://a", true, 100⟩]).1

/-- Claim C7: after any write sequence, the stored running average for a
site equals the arithmetic mean of all durations recorded for that site
(exactly, in the rational model of `float64` arithmetic), together with
the stored total equalling the number of those records. -/
theorem runningAverage_is_mean (cfg : SNMPConfigM) (rs : List TestRec)
    (name : String) (st : SiteStats)
    (h : List.lookup name (writeAll (initState cfg) rs).stats = some st) :
    st.totalTests = ((siteDurations rs name).length : Int) ∧
    0 < (siteDurations rs name).length ∧
    st.avgDurationMs =
      ((siteDurations rs name).sum : ℚ) /
        ((siteDurations rs name).length : ℚ) :=
  (storeInv_reached cfg rs).statsSpec name st h

set_option maxRecDepth 8000 in
/-- Witness for C7: two writes for one site, durations 150 and 320, stored
average 235. -/
theorem runningAverage_is_mean_witness :
    List.lookup "example.com"
      (writeAll (initState ⟨"public", ".1.3.6.1.4.1.55555"⟩)
        [⟨some 1000, "example.com", "https://example.com", true, 150⟩,
         ⟨some 1001, "example.com", "https://example.com", false, 320⟩]).stats
      = some
        { totalTests := 2
          successfulTests := 1
          failedTests := 1
          lastSuccessTime := some 1000
          lastFailureTime := some 1001
          lastDurationMs := 320
          avgDurationMs := 235
          maxDurationMs := 320
          minDurationMs := 150 } ∧
    (235 : ℚ) =
      ((siteDurations
        [⟨some 1000, "example.com", "https://example.com", true, 150⟩,
         ⟨some 1001, "example.com", "https://example.com", false, 320⟩]
        "example.com").sum : ℚ) /
      ((siteDurations
        [⟨some 1000, "example.com", "https://example.com", true, 150⟩,
         ⟨some 1001, "example.com", "https://example.com", false, 320⟩]
        "example.com").length : ℚ) := by
  have hlk : List.lookup "example.com"
      (writeAll (initState ⟨"public", ".1.3.6.1.4.1.55555"⟩)
        [⟨some 1000, "example.com", "https://example.com", true, 150⟩,
         ⟨some 1001, "example.com", "https://example.com", false, 320⟩]).stats
      = some
        { totalTests := 2
          successfulTests := 1
          failedTests := 1
          lastSuccessTime := some 1000
          lastFailureTime := some 1001
          lastDurationMs := 320
          avgDurationMs := 235
          maxDurationMs := 320
          minDurationMs := 150 } := by
    with_unfolding_all decide
  refine ⟨hlk, ?_⟩
  exact (runningAverage_is_mean ⟨"public", ".1.3.6.1.4.1.55555"⟩
    [⟨some 1000, "example.com", "https://example.com", true, 150⟩,
     ⟨some 1001, "example.com", "https://example.com", false, 320⟩]
    "example.com" _ hlk).2.2

theorem natStrGo_acc :
    ∀ (fuel n : Nat) (acc : List Char),
      natStrGo fuel n acc = natStrGo fuel n [] ++ acc := by
  intro fuel
  induction fuel with
  | zero => intro n acc; simp [natStrGo]
  | succ fuel ih =>
    intro n acc
    by_cases hn : n = 0
    · simp [natStrGo, hn]
    · rw [natStrGo, if_neg hn, natStrGo, if_neg hn, ih _ (_ :: acc), ih _ [_]]
      simp

theorem natStrGo_fuel :
    ∀ (n : Nat), ∀ (fuel1 fuel2 : Nat), n ≤ fuel1 → n ≤ fuel2 →
      natStrGo fuel1 n [] = natStrGo fuel2 n [] := by
  intro n
  induction n using Nat.strong_induction_on with
  | _ n ih =>
    intro fuel1 fuel2 h1 h2
    by_cases hn : n = 0
    · subst hn
      cases fuel1 <;> cases fuel2 <;> simp [natStrGo]
    · obtain ⟨f1, rfl⟩ : ∃ f1, fuel1 = f1 + 1 := ⟨fuel1 - 1, by omega⟩
      obtain ⟨f2, rfl⟩ : ∃ f2, fuel2 = f2 + 1 := ⟨fuel2 - 1, by omega⟩
      rw [natStrGo, if_neg hn, natStrGo, if_neg hn]
      rw [natStrGo_acc f1, natStrGo_acc f2]
      have hdiv : n / 10 < n := Nat.div_lt_self (by omega) (by norm_num)
      rw [ih (n / 10) hdiv f1 (n / 10) (by omega) le_rfl,
          ih (n / 10) hdiv f2 (n / 10) (by omega) le_rfl]

/-- The canonical decimal digit list of `n` (empty for 0). -/
def cds (n : Nat) : List Char := natStrGo n n []

theorem cds_step (n : Nat) (hn : 0 < n) :
    cds n = cds (n / 10) ++ [Char.ofNat (48 + n % 10)] := by
  unfold cds
  obtain ⟨m, rfl⟩ : ∃ m, n = m + 1 := ⟨n - 1, by omega⟩
  rw [natStrGo, if_neg (by omega), natStrGo_acc]
  congr 1
  exact natStrGo_fuel ((m + 1) / 10)
    m ((m + 1) / 10)
    (by have := Nat.div_lt_self (Nat.succ_pos m) (by norm_num : (1 : Nat) < 10); omega)
    le_rfl

theorem digitChar_facts (d : Nat) (h : d < 10) :
    (Char.ofNat (48 + d)).isDigit = true ∧ Char.ofNat (48 + d) ≠ '.' ∧
      Char.ofNat (48 + d) ≠ '-' ∧ Char.ofNat (48 + d) ≠ '+' ∧
      (Char.ofNat (48 + d)).toNat - 48 = d := by
  interval_cases d <;> exact ⟨by decide, by decide, by decide, by decide, by decide⟩

theorem cds_digits (n : Nat) : ∀ c ∈ cds n, c.isDigit = true := by
  induction n using Nat.strong_induction_on with
  | _ n ih =>
    by_cases hn : n = 0
    · subst hn
      intro c hc
      simp [cds, natStrGo] at hc
    · rw [cds_step n (by omega)]
      intro c hc
      rcases List.mem_append.mp hc with hc | hc
      · exact ih (n / 10) (Nat.div_lt_self (by omega) (by norm_num)) c hc
      · rcases List.mem_singleton.mp hc with rfl
        exact (digitChar_facts (n % 10) (Nat.mod_lt n (by norm_num))).1

theorem natStr_digits (n : Nat) : ∀ c ∈ (natStr n).data, c.isDigit = true := by
  unfold natStr
  by_cases hn : n = 0
  · subst hn; intro c hc; simp at hc; subst hc; decide
  · rw [if_neg hn]
    exact cds_digits n

theorem isDigit_ne_dot {c : Char} (h : c.isDigit = true) : c ≠ '.' := by
  intro hc
  subst hc
  simp [Char.isDigit] at h

theorem natStr_no_dot (n : Nat) : ∀ c ∈ (natStr n).data, c ≠ '.' :=
  fun c hc => isDigit_ne_dot (natStr_digits n c hc)

theorem digitsToNatAcc_append :
    ∀ (l1 l2 : List Char) (acc : Nat),
      digitsToNatAcc acc (l1 ++ l2) =
        match digitsToNatAcc acc l1 with
        | some m => digitsToNatAcc m l2
        | none => none := by
  intro l1
  induction l1 with
  | nil => intro l2 acc; simp [digitsToNatAcc]
  | cons c rest ih =>
    intro l2 acc
    by_cases hc : c.isDigit
    · rw [List.cons_append, digitsToNatAcc, if_pos hc, digitsToNatAcc,
        if_pos hc, ih]
    · rw [List.cons_append, digitsToNatAcc, if_neg hc, digitsToNatAcc,
        if_neg hc]

theorem cds_parse (n : Nat) :
    ∀ acc : Nat, digitsToNatAcc acc (cds n) =
      some (acc * 10 ^ (cds n).length + n) := by
  induction n using Nat.strong_induction_on with
  | _ n ih =>
    intro acc
    by_cases hn : n = 0
    · subst hn
      simp [cds, natStrGo, digitsToNatAcc]
    · rw [cds_step n (by omega)]
      rw [digitsToNatAcc_append]
      rw [ih (n / 10) (Nat.div_lt_self (by omega) (by norm_num)) acc]
      have hd := digitChar_facts (n % 10) (Nat.mod_lt n (by norm_num))
      simp only [digitsToNatAcc, hd.1, if_true, hd.2.2.2.2]
      congr 1
      rw [List.length_append]
      simp only [List.length_cons, List.length_nil]
      rw [pow_succ]
      have := Nat.div_add_mod n 10
      ring_nf
      omega

theorem natStr_parse (n : Nat) : goAtoiNat (natStr n).data = some n := by
  by_cases hn : n = 0
  · subst hn; decide
  · have hne : cds n ≠ [] := by
      rw [cds_step n (by omega)]
      simp
    have hdata : (natStr n).data = cds n := by
      unfold natStr
      rw [if_neg hn]
      rfl
    rw [hdata]
    cases hc : cds n with
    | nil => exact absurd hc hne
    | cons c rest =>
      rw [goAtoiNat, ← hc, cds_parse n 0]
      simp

theorem goAtoiCore_digits (l : List Char) (hl : ∀ c ∈ l, c.isDigit = true) :
    goAtoiCore l = (goAtoiNat l).map (fun n => (n : Int)) := by
  cases l with
  | nil => rfl
  | cons c rest =>
    have hcd : c.isDigit = true := hl c (List.mem_cons_self _ _)
    have hcm : ¬ c = '-' := by
      intro hcc; subst hcc; simp [Char.isDigit] at hcd
    have hcp : ¬ c = '+' := by
      intro hcc; subst hcc; simp [Char.isDigit] at hcd
    simp [goAtoiCore, hcm, hcp]

theorem compVal_natStr (n : Nat) (h : n < 2 ^ 63) :
    compVal (natStr n).data = (n : Int) := by
  have h1 : -(2 ^ 63 : Int) ≤ (n : Int) ∧ (n : Int) ≤ (2 ^ 63 : Int) - 1 := by
    constructor
    · have := Int.natCast_nonneg n
      omega
    · have : (n : Int) < (2 : Int) ^ 63 := by exact_mod_cast h
      omega
  unfold compVal goAtoi
  rw [goAtoiCore_digits _ (natStr_digits n), natStr_parse n]
  simp [h1]
  rw [if_pos]
  · rfl
  · have hp : (2 : Nat) ^ 63 = 9223372036854775808 := by norm_num
    refine ⟨?_, ?_⟩
    · have := Int.natCast_nonneg n
      omega
    · omega

theorem intStr_ofNat (n : Nat) : intStr (n : Int) = natStr n := by
  unfold intStr
  rw [if_neg (by omega), Int.toNat_natCast]

theorem splitDots_ne_nil : ∀ l : List Char, splitDots l ≠ [] := by
  intro l
  induction l with
  | nil => simp [splitDots]
  | cons c rest ih =>
    rw [splitDots]
    by_cases hc : c = '.'
    · simp [hc]
    · rw [if_neg hc]
      cases hq : splitDots rest <;> simp

theorem splitDots_append_dot :
    ∀ (a b : List Char), splitDots (a ++ '.' :: b) = splitDots a ++ splitDots b := by
  intro a
  induction a with
  | nil => intro b; simp [splitDots]
  | cons c a2 ih =>
    intro b
    rw [List.cons_append, splitDots]
    by_cases hc : c = '.'
    · rw [if_pos hc, ih, splitDots, if_pos hc]
      simp
    · rw [if_neg hc, ih]
      cases hq : splitDots a2 with
      | nil => exact absurd hq (splitDots_ne_nil a2)
      | cons g gs =>
        rw [splitDots, if_neg hc, hq]
        simp

theorem splitDots_no_dot :
    ∀ l : List Char, (∀ c ∈ l, c ≠ '.') → splitDots l = [l] := by
  intro l
  induction l with
  | nil => intro _; rfl
  | cons c rest ih =>
    intro h
    rw [splitDots, if_neg (h c (List.mem_cons_self _ _)),
      ih fun d hd => h d (List.mem_cons_of_mem _ hd)]

theorem cmpLoop_append_left :
    ∀ (P Q1 Q2 : List (List Char)),
      cmpLoop (P ++ Q1) (P ++ Q2) = cmpLoop Q1 Q2 := by
  intro P
  induction P with
  | nil => intro Q1 Q2; rfl
  | cons x P2 ih =>
    intro Q1 Q2
    rw [List.cons_append, List.cons_append, cmpLoop]
    simp only [lt_irrefl, if_false]
    exact ih Q1 Q2

theorem cmpLoop_self (Q : List (List Char)) : cmpLoop Q Q = 0 := by
  have := cmpLoop_append_left Q [] []
  simpa using this

theorem cmpLoop_cons_lt {a b : List Char} (h : compVal a < compVal b)
    (as bs : List (List Char)) : cmpLoop (a :: as) (b :: bs) = -1 := by
  rw [cmpLoop]
  simp [h]

theorem cmpTailRight_neg :
    ∀ l : List (List Char), cmpTailRight l = -cmpTailLeft l := by
  intro l
  induction l with
  | nil => rfl
  | cons a as ih =>
    simp only [cmpTailRight, cmpTailLeft]
    split_ifs <;> first | omega | exact ih

theorem cmpLoop_neg :
    ∀ (q1 q2 : List (List Char)), cmpLoop q2 q1 = -cmpLoop q1 q2 := by
  intro q1
  induction q1 with
  | nil =>
    intro q2
    cases q2 with
    | nil => rfl
    | cons b bs =>
      rw [show cmpLoop (b :: bs) [] = cmpTailLeft (b :: bs) from rfl,
        show cmpLoop [] (b :: bs) = cmpTailRight (b :: bs) from rfl,
        cmpTailRight_neg]
      try omega
  | cons a as ih =>
    intro q2
    cases q2 with
    | nil =>
      rw [show cmpLoop [] (a :: as) = cmpTailRight (a :: as) from rfl,
        show cmpLoop (a :: as) [] = cmpTailLeft (a :: as) from rfl,
        cmpTailRight_neg]
      try omega
    | cons b bs =>
      simp only [cmpLoop]
      split_ifs <;> first | omega | exact ih bs

/-- Claim C2 relies on antisymmetry: swapping the arguments of
`compareOIDs` negates the result. -/
theorem compareOIDs_neg (a b : String) :
    compareOIDs b a = -compareOIDs a b := by
  by_cases hab : a = b
  · rw [hab, compareOIDs_self]
    norm_num
  · have hba : ¬ b = a := fun hc => hab hc.symm
    simp only [compareOIDs, if_neg hab, if_neg hba]
    rw [cmpLoop_neg (splitDots (dropDot a.data)) (splitDots (dropDot b.data))]
    split_ifs <;> omega

/-- The value of `compareOIDs` on two addresses sharing the leading-dot
prefix `P`, as a function of the post-prefix component tails. -/
def sufCmpValL (t1 t2 : List Char) : Int :=
  let q1 := splitDots t1
  let q2 := splitDots t2
  let r := cmpLoop q1 q2
  if r ≠ 0 then r
  else if q1.length < q2.length then -1
  else if q2.length < q1.length then 1
  else 0

theorem sufCmpValL_self (t : List Char) : sufCmpValL t t = 0 := by
  simp only [sufCmpValL]
  rw [cmpLoop_self]
  simp

theorem compareOIDs_data (k1 k2 : String) (P t1 t2 : List Char)
    (h1 : k1.data = '.' :: (P ++ '.' :: t1))
    (h2 : k2.data = '.' :: (P ++ '.' :: t2)) :
    compareOIDs k1 k2 = sufCmpValL t1 t2 := by
  by_cases hk : k1 = k2
  · subst hk
    have hX : ('.' :: (P ++ '.' :: t1) : List Char) =
        '.' :: (P ++ '.' :: t2) := h1.symm.trans h2
    simp only [List.cons.injEq, true_and] at hX
    have hX2 := List.append_cancel_left hX
    simp only [List.cons.injEq, true_and] at hX2
    subst hX2
    rw [compareOIDs_self, sufCmpValL_self]
  · have e1 : dropDot k1.data = P ++ '.' :: t1 := by rw [h1]; rfl
    have e2 : dropDot k2.data = P ++ '.' :: t2 := by rw [h2]; rfl
    simp only [compareOIDs, sufCmpValL, if_neg hk]
    rw [e1, e2, splitDots_append_dot, splitDots_append_dot,
      cmpLoop_append_left]
    by_cases hr : cmpLoop (splitDots t1) (splitDots t2) ≠ 0
    · rw [if_pos hr, if_pos hr]
    · rw [if_neg hr, if_neg hr]
      simp only [List.length_append]
      rcases lt_trichotomy (splitDots t1).length (splitDots t2).length
        with hl | hl | hl
      · rw [if_pos (by omega), if_pos hl]
      · rw [if_neg (by omega), if_neg (by omega), if_neg (by omega),
          if_neg (by omega)]
      · rw [if_neg (by omega), if_pos (by omega), if_neg (by omega),
          if_pos hl]

theorem splitDots_siteTail (I J : List Char) (hI : ∀ c ∈ I, c ≠ '.')
    (hJ : ∀ c ∈ J, c ≠ '.') :
    splitDots ('5' :: '.' :: (I ++ '.' :: J)) = [['5'], I, J] := by
  have h1 : splitDots ('5' :: '.' :: (I ++ '.' :: J)) =
      ['5'] :: splitDots (I ++ '.' :: J) := by
    rw [splitDots, if_neg (by decide), splitDots, if_pos rfl]
  rw [h1, splitDots_append_dot, splitDots_no_dot I hI, splitDots_no_dot J hJ]
  rfl

theorem sufCmpValL_first_lt (t1 t2 C1 C2 : List Char)
    (q1 q2 : List (List Char))
    (h1 : splitDots t1 = C1 :: q1) (h2 : splitDots t2 = C2 :: q2)
    (hv : compVal C1 < compVal C2) : sufCmpValL t1 t2 = -1 := by
  simp only [sufCmpValL]
  rw [h1, h2, cmpLoop_cons_lt hv]
  norm_num

theorem sufCmpValL_site_idx_lt (I1 I2 J1 J2 : List Char)
    (hI1 : ∀ c ∈ I1, c ≠ '.') (hI2 : ∀ c ∈ I2, c ≠ '.')
    (hJ1 : ∀ c ∈ J1, c ≠ '.') (hJ2 : ∀ c ∈ J2, c ≠ '.')
    (hv : compVal I1 < compVal I2) :
    sufCmpValL ('5' :: '.' :: (I1 ++ '.' :: J1))
      ('5' :: '.' :: (I2 ++ '.' :: J2)) = -1 := by
  simp only [sufCmpValL]
  rw [splitDots_siteTail I1 J1 hI1 hJ1, splitDots_siteTail I2 J2 hI2 hJ2]
  have : cmpLoop [['5'], I1, J1] [['5'], I2, J2] =
      cmpLoop [I1, J1] [I2, J2] :=
    cmpLoop_append_left [['5']] [I1, J1] [I2, J2]
  rw [this, cmpLoop_cons_lt hv]
  norm_num

theorem sufCmpValL_site_j_lt (I J1 J2 : List Char)
    (hI : ∀ c ∈ I, c ≠ '.')
    (hJ1 : ∀ c ∈ J1, c ≠ '.') (hJ2 : ∀ c ∈ J2, c ≠ '.')
    (hv : compVal J1 < compVal J2) :
    sufCmpValL ('5' :: '.' :: (I ++ '.' :: J1))
      ('5' :: '.' :: (I ++ '.' :: J2)) = -1 := by
  simp only [sufCmpValL]
  rw [splitDots_siteTail I J1 hI hJ1, splitDots_siteTail I J2 hI hJ2]
  have : cmpLoop [['5'], I, J1] [['5'], I, J2] = cmpLoop [J1] [J2] :=
    cmpLoop_append_left [['5'], I] [J1] [J2]
  rw [this, cmpLoop_cons_lt hv]
  norm_num

theorem dropDotsRev_ne_nil : ∀ l : List Char, l ≠ [] → dropDotsRev l ≠ [] := by
  intro l
  induction l with
  | nil => intro h; exact absurd rfl h
  | cons c rest ih =>
    intro _
    rw [dropDotsRev]
    by_cases hc : c = '.' ∧ rest ≠ []
    · rw [if_pos hc]
      exact ih hc.2
    · rw [if_neg hc]
      simp

theorem dropDotsRev_suffix : ∀ l : List Char, ∃ k, l = k ++ dropDotsRev l := by
  intro l
  induction l with
  | nil => exact ⟨[], rfl⟩
  | cons c rest ih =>
    rw [dropDotsRev]
    by_cases hc : c = '.' ∧ rest ≠ []
    · rw [if_pos hc]
      obtain ⟨k, hk⟩ := ih
      exact ⟨c :: k, by rw [List.cons_append, ← hk]⟩
    · rw [if_neg hc]
      exact ⟨[], rfl⟩

theorem normalizeOID_head (s : String) :
    normalizeOID s = "." ∨
      ∃ brest, (normalizeOID s).data = '.' :: brest := by
  unfold normalizeOID
  by_cases ht : goTrim s.data = []
  · rw [if_pos ht]
    left
    rfl
  · rw [if_neg ht]
    right
    set t := goTrim s.data with hts
    set t2 := if t.head? = some '.' then t else '.' :: t with ht2
    have ht2h : t2.head? = some '.' := by
      rw [ht2]
      by_cases hh : t.head? = some '.'
      · rw [if_pos hh]; exact hh
      · rw [if_neg hh]; rfl
    have ht2ne : t2 ≠ [] := by
      intro hc
      rw [hc] at ht2h
      cases ht2h
    have hdd := dropDotsRev_suffix t2.reverse
    obtain ⟨k, hk⟩ := hdd
    have hddne : dropDotsRev t2.reverse ≠ [] :=
      dropDotsRev_ne_nil t2.reverse (by simpa using ht2ne)
    have hpre : t2 = (dropDotsRev t2.reverse).reverse ++ k.reverse := by
      have := congrArg List.reverse hk
      simpa using this
    cases hrr : (dropDotsRev t2.reverse).reverse with
    | nil =>
      exfalso
      apply hddne
      simpa using congrArg List.reverse hrr
    | cons c cs =>
      refine ⟨cs, ?_⟩
      have hc : c = '.' := by
        have h1 : t2.head? = some c := by
          rw [hpre, hrr]
          rfl
        rw [ht2h] at h1
        exact (Option.some.injEq _ _ ▸ h1.symm :)
      simp only [String.data]
      rw [hrr, hc]

theorem effBase_head (e : String) :
    ∃ brest, (effBase e).data = '.' :: brest := by
  unfold effBase
  rcases normalizeOID_head e with h | ⟨brest, h⟩
  · rw [if_pos h]
    exact ⟨"1.3.6.1.4.1.99999".data, rfl⟩
  · by_cases hdot : normalizeOID e = "."
    · rw [if_pos hdot]
      exact ⟨"1.3.6.1.4.1.99999".data, rfl⟩
    · rw [if_neg hdot]
      exact ⟨brest, h⟩

theorem scalarKey_data (base : String) (brest : List Char)
    (hb : base.data = '.' :: brest) (suf : String) (t : List Char)
    (hsuf : suf.data = '.' :: t) :
    (base ++ suf).data = '.' :: (brest ++ '.' :: t) := by
  rw [String.data_append, hb, hsuf]
  rfl

theorem siteKey_data (base : String) (brest : List Char)
    (hb : base.data = '.' :: brest) (idx : Int) (suf : String)
    (J : List Char) (hsuf : suf.data = '.' :: J) :
    ((((base ++ ".5") ++ "." ++ intStr idx) ++ suf)).data =
      '.' :: (brest ++ '.' ::
        ('5' :: '.' :: ((intStr idx).data ++ '.' :: J))) := by
  have h5 : (".5" : String).data = ['.', '5'] := rfl
  have hd : ("." : String).data = ['.'] := rfl
  rw [String.data_append, String.data_append, String.data_append,
    String.data_append, hb, hsuf, h5, hd]
  simp

/-- The ten literal per-site leaf suffixes, in insertion order. -/
def leafSuffixes : List String :=
  [".1", ".2", ".3", ".4", ".5", ".6", ".7", ".8", ".9", ".10"]

theorem tenLeaves_keys (siteBase : String) (idx : Int) (name : String)
    (st : SiteStats) :
    (tenLeaves siteBase idx name st).map Prod.fst =
      leafSuffixes.map (fun suf => (siteBase ++ "." ++ intStr idx) ++ suf) :=
  rfl

/-- The ten leaf addresses of the site with index `idx`. -/
def leafKeys (base : String) (idx : Int) : List String :=
  leafSuffixes.map (fun suf => ((base ++ ".5") ++ "." ++ intStr idx) ++ suf)

/-- The leaf addresses of `n` consecutive site indices starting at
`start`. -/
def idxKeys (base : String) (start : Int) : Nat → List String
  | 0 => []
  | n + 1 => leafKeys base start ++ idxKeys base (start + 1) n

/-- The four scalar addresses of the layout. -/
def scalarKeys (base : String) : List String :=
  [base ++ ".1.0", base ++ ".2.0", base ++ ".3.0", base ++ ".4.0"]

theorem leafSuffixes_facts :
    ∀ suf ∈ leafSuffixes, suf.data.head? = some '.' ∧
      ∀ c ∈ suf.data.tail, c ≠ '.' := by decide

theorem leafSuffixes_pairwise :
    List.Pairwise (fun s1 s2 =>
      compVal s1.data.tail < compVal s2.data.tail) leafSuffixes := by decide

theorem head?_decompose {l : List Char} {c : Char} (h : l.head? = some c) :
    l = c :: l.tail := by
  cases l with
  | nil => cases h
  | cons x xs =>
    simp only [List.head?_cons, Option.some.injEq] at h
    rw [h]
    rfl

theorem compVal_five : compVal ['5'] = 5 := by decide

theorem intStr_facts (m : Nat) (hm : m < 2 ^ 63) :
    (∀ c ∈ (intStr (m : Int)).data, c ≠ '.') ∧
      compVal (intStr (m : Int)).data = (m : Int) := by
  rw [intStr_ofNat]
  exact ⟨natStr_no_dot m, compVal_natStr m hm⟩

theorem leaf_pair_j (base : String) (brest : List Char)
    (hb : base.data = '.' :: brest) (m : Nat) (hm : m < 2 ^ 63)
    (s1 s2 : String)
    (hs1 : s1.data.head? = some '.') (hs2 : s2.data.head? = some '.')
    (hJ1 : ∀ c ∈ s1.data.tail, c ≠ '.') (hJ2 : ∀ c ∈ s2.data.tail, c ≠ '.')
    (hv : compVal s1.data.tail < compVal s2.data.tail) :
    compareOIDs (((base ++ ".5") ++ "." ++ intStr (m : Int)) ++ s1)
      (((base ++ ".5") ++ "." ++ intStr (m : Int)) ++ s2) < 0 := by
  obtain ⟨hI, _⟩ := intStr_facts m hm
  rw [compareOIDs_data _ _ brest _ _
    (siteKey_data base brest hb _ s1 s1.data.tail (head?_decompose hs1))
    (siteKey_data base brest hb _ s2 s2.data.tail (head?_decompose hs2))]
  rw [sufCmpValL_site_j_lt _ _ _ hI hJ1 hJ2 hv]
  norm_num

theorem leaf_pair_idx (base : String) (brest : List Char)
    (hb : base.data = '.' :: brest) (m1 m2 : Nat) (hm1 : m1 < 2 ^ 63)
    (hm2 : m2 < 2 ^ 63) (hlt : m1 < m2) (s1 s2 : String)
    (hs1 : s1.data.head? = some '.') (hs2 : s2.data.head? = some '.')
    (hJ1 : ∀ c ∈ s1.data.tail, c ≠ '.') (hJ2 : ∀ c ∈ s2.data.tail, c ≠ '.') :
    compareOIDs (((base ++ ".5") ++ "." ++ intStr (m1 : Int)) ++ s1)
      (((base ++ ".5") ++ "." ++ intStr (m2 : Int)) ++ s2) < 0 := by
  obtain ⟨hI1, hv1⟩ := intStr_facts m1 hm1
  obtain ⟨hI2, hv2⟩ := intStr_facts m2 hm2
  rw [compareOIDs_data _ _ brest _ _
    (siteKey_data base brest hb _ s1 s1.data.tail (head?_decompose hs1))
    (siteKey_data base brest hb _ s2 s2.data.tail (head?_decompose hs2))]
  rw [sufCmpValL_site_idx_lt _ _ _ _ hI1 hI2 hJ1 hJ2
    (by rw [hv1, hv2]; exact_mod_cast hlt)]
  norm_num

theorem scalar_site_pair (base : String) (brest : List Char)
    (hb : base.data = '.' :: brest) (s : String) (t C0 : List Char)
    (q0 : List (List Char)) (hs : s.data = '.' :: t)
    (hsplit : splitDots t = C0 :: q0) (hC : compVal C0 < 5)
    (m : Nat) (hm : m < 2 ^ 63) (suf : String)
    (hsuf : suf.data.head? = some '.')
    (hJ : ∀ c ∈ suf.data.tail, c ≠ '.') :
    compareOIDs (base ++ s)
      (((base ++ ".5") ++ "." ++ intStr (m : Int)) ++ suf) < 0 := by
  obtain ⟨hI, _⟩ := intStr_facts m hm
  rw [compareOIDs_data _ _ brest _ _
    (scalarKey_data base brest hb s t hs)
    (siteKey_data base brest hb _ suf suf.data.tail (head?_decompose hsuf))]
  rw [sufCmpValL_first_lt _ _ C0 ['5'] q0 [(intStr (m : Int)).data, suf.data.tail]
    hsplit (splitDots_siteTail _ _ hI hJ) (by rw [compVal_five]; exact hC)]
  norm_num

theorem scalarKeys_pairwise (base : String) (brest : List Char)
    (hb : base.data = '.' :: brest) :
    List.Pairwise lessOID (scalarKeys base) := by
  have h1 : (".1.0" : String).data = '.' :: ['1', '.', '0'] := rfl
  have h2 : (".2.0" : String).data = '.' :: ['2', '.', '0'] := rfl
  have h3 : (".3.0" : String).data = '.' :: ['3', '.', '0'] := rfl
  have h4 : (".4.0" : String).data = '.' :: ['4', '.', '0'] := rfl
  have key : ∀ (sa sb : String) (ta tb : List Char),
      sa.data = '.' :: ta → sb.data = '.' :: tb → sufCmpValL ta tb = -1 →
      lessOID (base ++ sa) (base ++ sb) := by
    intro sa sb ta tb ha hc hv
    unfold lessOID
    rw [compareOIDs_data _ _ brest _ _
      (scalarKey_data base brest hb sa ta ha)
      (scalarKey_data base brest hb sb tb hc), hv]
    norm_num
  refine List.Pairwise.cons ?_ (List.Pairwise.cons ?_
    (List.Pairwise.cons ?_ (List.Pairwise.cons ?_ List.Pairwise.nil)))
  · intro b hbm
    simp only [List.mem_cons, List.not_mem_nil, or_false] at hbm
    rcases hbm with rfl | rfl | rfl
    · exact key ".1.0" ".2.0" _ _ h1 h2 (by decide)
    · exact key ".1.0" ".3.0" _ _ h1 h3 (by decide)
    · exact key ".1.0" ".4.0" _ _ h1 h4 (by decide)
  · intro b hbm
    simp only [List.mem_cons, List.not_mem_nil, or_false] at hbm
    rcases hbm with rfl | rfl
    · exact key ".2.0" ".3.0" _ _ h2 h3 (by decide)
    · exact key ".2.0" ".4.0" _ _ h2 h4 (by decide)
  · intro b hbm
    simp only [List.mem_cons, List.not_mem_nil, or_false] at hbm
    rcases hbm with rfl
    exact key ".3.0" ".4.0" _ _ h3 h4 (by decide)
  · intro b hbm
    simp at hbm

theorem mem_leafKeys {base : String} {idx : Int} {b : String}
    (h : b ∈ leafKeys base idx) :
    ∃ suf ∈ leafSuffixes,
      b = ((base ++ ".5") ++ "." ++ intStr idx) ++ suf := by
  obtain ⟨suf, hsm, hb⟩ := List.mem_map.mp h
  exact ⟨suf, hsm, hb.symm⟩

theorem leafKeys_pairwise (base : String) (brest : List Char)
    (hb : base.data = '.' :: brest) (m : Nat) (hm : m < 2 ^ 63) :
    List.Pairwise lessOID (leafKeys base (m : Int)) := by
  unfold leafKeys
  rw [List.pairwise_map]
  refine List.Pairwise.imp_of_mem ?_ leafSuffixes_pairwise
  intro s1 s2 hm1 hm2 hv
  obtain ⟨hh1, ht1⟩ := leafSuffixes_facts s1 hm1
  obtain ⟨hh2, ht2⟩ := leafSuffixes_facts s2 hm2
  exact leaf_pair_j base brest hb m hm s1 s2 hh1 hh2 ht1 ht2 hv

theorem mem_idxKeys {base : String} :
    ∀ (n : Nat) (start : Nat) {b : String},
      b ∈ idxKeys base (start : Int) n →
      ∃ t : Nat, start ≤ t ∧ t < start + n ∧ b ∈ leafKeys base (t : Int) := by
  intro n
  induction n with
  | zero => intro start b h; simp [idxKeys] at h
  | succ n ih =>
    intro start b h
    rw [idxKeys] at h
    rcases List.mem_append.mp h with h | h
    · exact ⟨start, le_rfl, by omega, h⟩
    · have hcast : ((start : Int) + 1) = ((start + 1 : Nat) : Int) := by
        push_cast; ring
      rw [hcast] at h
      obtain ⟨t, ht1, ht2, ht3⟩ := ih (start + 1) h
      exact ⟨t, by omega, by omega, ht3⟩

theorem idxKeys_pairwise (base : String) (brest : List Char)
    (hb : base.data = '.' :: brest) :
    ∀ (n : Nat) (start : Nat), 1 ≤ start → start + n ≤ 2 ^ 63 →
      List.Pairwise lessOID (idxKeys base (start : Int) n) := by
  intro n
  induction n with
  | zero => intro start _ _; exact List.Pairwise.nil
  | succ n ih =>
    intro start hs1 hs2
    rw [idxKeys, List.pairwise_append]
    refine ⟨leafKeys_pairwise base brest hb start (by omega), ?_, ?_⟩
    · have hcast : ((start : Int) + 1) = ((start + 1 : Nat) : Int) := by
        push_cast; ring
      rw [hcast]
      exact ih (start + 1) (by omega) (by omega)
    · intro a ha b hbm
      have hcast : ((start : Int) + 1) = ((start + 1 : Nat) : Int) := by
        push_cast; ring
      rw [hcast] at hbm
      obtain ⟨t, ht1, ht2, ht3⟩ := mem_idxKeys n (start + 1) hbm
      obtain ⟨s1, hs1m, rfl⟩ := mem_leafKeys ha
      obtain ⟨s2, hs2m, rfl⟩ := mem_leafKeys ht3
      obtain ⟨hh1, htl1⟩ := leafSuffixes_facts s1 hs1m
      obtain ⟨hh2, htl2⟩ := leafSuffixes_facts s2 hs2m
      exact leaf_pair_idx base brest hb start t (by omega) (by omega)
        (by omega) s1 s2 hh1 hh2 htl1 htl2

theorem snapKeys_pairwise (base : String) (brest : List Char)
    (hb : base.data = '.' :: brest) (k : Nat) (hk : k < 2 ^ 63) :
    List.Pairwise lessOID (scalarKeys base ++ idxKeys base 1 k) := by
  rw [List.pairwise_append]
  refine ⟨scalarKeys_pairwise base brest hb, ?_, ?_⟩
  · have := idxKeys_pairwise base brest hb k 1 le_rfl (by omega)
    simpa using this
  · intro a ha b hbm
    have h1 : ((1 : Nat) : Int) = (1 : Int) := by norm_num
    rw [← h1] at hbm
    obtain ⟨t, ht1, ht2, ht3⟩ := mem_idxKeys k 1 hbm
    obtain ⟨suf, hsm, rfl⟩ := mem_leafKeys ht3
    obtain ⟨hh, htl⟩ := leafSuffixes_facts suf hsm
    simp only [scalarKeys, List.mem_cons, List.not_mem_nil, or_false] at ha
    rcases ha with rfl | rfl | rfl | rfl
    · exact scalar_site_pair base brest hb ".1.0" ['1', '.', '0'] ['1'] [['0']]
        rfl (by decide) (by decide) t (by omega) suf hh htl
    · exact scalar_site_pair base brest hb ".2.0" ['2', '.', '0'] ['2'] [['0']]
        rfl (by decide) (by decide) t (by omega) suf hh htl
    · exact scalar_site_pair base brest hb ".3.0" ['3', '.', '0'] ['3'] [['0']]
        rfl (by decide) (by decide) t (by omega) suf hh htl
    · exact scalar_site_pair base brest hb ".4.0" ['4', '.', '0'] ['4'] [['0']]
        rfl (by decide) (by decide) t (by omega) suf hh htl

/-- Statistics entries with their positions turned into site indices. -/
def withIdx (start : Int) : List (String × SiteStats) →
    List (String × Int × SiteStats)
  | [] => []
  | p :: rest => (p.1, start, p.2) :: withIdx (start + 1) rest

theorem entries_eq :
    ∀ (stats : List (String × SiteStats)) (idxList : List (String × Int))
      (start : Int),
      (∀ (j : Nat) (h : j < stats.length),
        List.lookup (stats.get ⟨j, h⟩).1 idxList = some (start + j)) →
      (stats.filterMap fun p =>
        (List.lookup p.1 idxList).map fun idx => (p.1, idx, p.2)) =
        withIdx start stats := by
  intro stats
  induction stats with
  | nil => intro idxList start _; rfl
  | cons p rest ih =>
    intro idxList start hlk
    have h0 := hlk 0 (by simp)
    simp only [List.get, Nat.cast_zero, add_zero] at h0
    rw [List.filterMap_cons, h0]
    simp only [Option.map_some']
    rw [withIdx]
    congr 1
    apply ih
    intro j h
    have := hlk (j + 1) (by simpa using h)
    have hcast : start + ((j : Nat) + 1 : Nat) = start + 1 + (j : Nat) := by
      push_cast; ring
    rw [← hcast]
    exact this

theorem mem_withIdx_idx_ge :
    ∀ (l : List (String × SiteStats)) (start : Int)
      (e : String × Int × SiteStats), e ∈ withIdx start l → start ≤ e.2.1 := by
  intro l
  induction l with
  | nil => intro start e h; simp [withIdx] at h
  | cons p rest ih =>
    intro start e h
    rw [withIdx] at h
    rcases List.mem_cons.mp h with rfl | h
    · simp
    · have := ih (start + 1) e h
      omega

theorem withIdx_sorted :
    ∀ (l : List (String × SiteStats)) (start : Int),
      List.Pairwise lessEntry (withIdx start l) := by
  intro l
  induction l with
  | nil => intro start; exact List.Pairwise.nil
  | cons p rest ih =>
    intro start
    rw [withIdx]
    refine List.Pairwise.cons ?_ (ih (start + 1))
    intro e he
    have := mem_withIdx_idx_ge rest (start + 1) e he
    simp only [lessEntry]
    rw [if_neg (by omega)]
    omega

theorem withIdx_flatMap_keys (base : String) :
    ∀ (l : List (String × SiteStats)) (start : Int),
      ((withIdx start l).flatMap fun e =>
        tenLeaves (base ++ ".5") e.2.1 e.1 e.2.2).map Prod.fst =
        idxKeys base start l.length := by
  intro l
  induction l with
  | nil => intro start; rfl
  | cons p rest ih =>
    intro start
    rw [withIdx, List.flatMap_cons, List.map_append, ih]
    simp only [List.length_cons]
    rw [show idxKeys base start (rest.length + 1) =
      leafKeys base start ++ idxKeys base (start + 1) rest.length from rfl]
    congr 1

theorem lookup_get_nodup :
    ∀ (stats : List (String × SiteStats)),
      (stats.map Prod.fst).Nodup →
      ∀ (j : Nat) (h : j < stats.length),
        List.lookup (stats.get ⟨j, h⟩).1 stats = some (stats.get ⟨j, h⟩).2 := by
  intro stats
  induction stats with
  | nil => intro _ j h; cases h
  | cons p rest ih =>
    intro hnd j h
    rw [List.map_cons, List.nodup_cons] at hnd
    obtain ⟨hp, hnd2⟩ := hnd
    cases j with
    | zero =>
      rw [List.lookup_cons]
      simp
    | succ j0 =>
      have hget : ((p :: rest).get ⟨j0 + 1, h⟩) =
          rest.get ⟨j0, by simpa using h⟩ := rfl
      rw [hget, List.lookup_cons]
      have hne : ((rest.get ⟨j0, by simpa using h⟩).1 == p.1) = false := by
        refine beq_eq_false_iff_ne.mpr ?_
        intro hc
        refine hp ?_
        rw [← hc]
        exact List.mem_map.mpr ⟨_, List.get_mem rest j0 (by simpa using h), rfl⟩
      rw [hne]
      exact ih hnd2 j0 (by simpa using h)

theorem lookup_of_mem_nodup :
    ∀ (l : List (String × SnmpPDU)), (l.map Prod.fst).Nodup →
      ∀ {k : String} {v : SnmpPDU}, (k, v) ∈ l → List.lookup k l = some v := by
  intro l
  induction l with
  | nil => intro _ k v h; cases h
  | cons p rest ih =>
    intro hnd k v hm
    rw [List.map_cons, List.nodup_cons] at hnd
    obtain ⟨hp, hnd2⟩ := hnd
    rcases List.mem_cons.mp hm with heq | hm2
    · rw [← heq, List.lookup_cons]
      simp
    · have hne : (k == p.1) = false := by
        refine beq_eq_false_iff_ne.mpr ?_
        intro hc
        refine hp ?_
        rw [← hc]
        exact List.mem_map.mpr ⟨_, hm2, rfl⟩
      rw [List.lookup_cons, hne]
      exact ih hnd2 hm2

theorem lessOID_ne {a b : String} (h : lessOID a b) : a ≠ b := by
  intro hc
  subst hc
  unfold lessOID at h
  rw [compareOIDs_self] at h
  omega

theorem pairwise_lessOID_nodup {l : List String}
    (h : List.Pairwise lessOID l) : l.Nodup :=
  h.imp fun hab => lessOID_ne hab

theorem pairwise_mem_cases {R : String → String → Prop} :
    ∀ (l : List String), List.Pairwise R l →
      ∀ a ∈ l, ∀ b ∈ l, a ≠ b → R a b ∨ R b a := by
  intro l
  induction l with
  | nil => intro _ a ha; cases ha
  | cons x rest ih =>
    intro hp a ha b hbm hab
    rcases List.pairwise_cons.mp hp with ⟨hx, hrest⟩
    rcases List.mem_cons.mp ha with rfl | ha2
    · rcases List.mem_cons.mp hbm with rfl | hb2
      · exact absurd rfl hab
      · exact Or.inl (hx b hb2)
    · rcases List.mem_cons.mp hbm with rfl | hb2
      · exact Or.inr (hx a ha2)
      · exact ih hrest a ha2 b hb2 hab

theorem withIdx_get_mem :
    ∀ (l : List (String × SiteStats)) (start : Int) (j : Nat)
      (h : j < l.length),
      ((l.get ⟨j, h⟩).1, start + j, (l.get ⟨j, h⟩).2) ∈ withIdx start l := by
  intro l
  induction l with
  | nil => intro start j h; cases h
  | cons p rest ih =>
    intro start j h
    cases j with
    | zero =>
      rw [withIdx]
      simp
    | succ j0 =>
      rw [withIdx]
      refine List.mem_cons_of_mem _ ?_
      have := ih (start + 1) j0 (by simpa using h)
      have hcast : start + 1 + (j0 : Int) = start + ((j0 : Nat) + 1 : Nat) := by
        push_cast; ring
      rw [hcast] at this
      exact this

theorem buildOIDSnapshot_values (s : SNMPState) (uptime : Nat) :
    (buildOIDSnapshot s uptime).2 =
      [ (effBase s.enterpriseOID ++ ".1.0",
          gaugePDU (effBase s.enterpriseOID ++ ".1.0")
            (s.cache.length % 2 ^ 32)),
        (effBase s.enterpriseOID ++ ".2.0",
          gaugePDU (effBase s.enterpriseOID ++ ".2.0") (s.maxSize % 2 ^ 32)),
        (effBase s.enterpriseOID ++ ".3.0",
          gaugePDU (effBase s.enterpriseOID ++ ".3.0")
            (s.siteIndex.length % 2 ^ 32)),
        (effBase s.enterpriseOID ++ ".4.0",
          timeTicksPDU (effBase s.enterpriseOID ++ ".4.0")
            (uptime % 2 ^ 32)) ] ++
      (List.insertionSort lessEntry
        (s.stats.filterMap fun p =>
          (List.lookup p.1 s.siteIndex).map fun idx =>
            (p.1, idx, p.2))).flatMap
        (fun e => tenLeaves (effBase s.enterpriseOID ++ ".5")
          e.2.1 e.1 e.2.2) := rfl

theorem buildOIDSnapshot_oids (s : SNMPState) (uptime : Nat) :
    (buildOIDSnapshot s uptime).1 =
      List.insertionSort lessOID
        ((buildOIDSnapshot s uptime).2.map Prod.fst) := rfl

/-- Master characterization of the snapshot of a reachable store state:
the bound addresses are exactly the four scalars followed by the ten
leaves of every seen site in index order; the key list is strictly sorted
under `compareOIDs` and is what the walk order exposes; every binding is
retrievable by lookup. -/
theorem snapshotSpec (cfg : SNMPConfigM) (uptime : Nat) (rs : List TestRec)
    (hlen : rs.length < 2 ^ 63) :
    (buildOIDSnapshot (writeAll (initState cfg) rs) uptime).2.map Prod.fst =
      scalarKeys (effBase cfg.enterpriseOID) ++
        idxKeys (effBase cfg.enterpriseOID) 1
          (firstSeenL (rs.map siteKeyOf)).length ∧
    (buildOIDSnapshot (writeAll (initState cfg) rs) uptime).1 =
      (buildOIDSnapshot (writeAll (initState cfg) rs) uptime).2.map Prod.fst ∧
    List.Pairwise lessOID
      ((buildOIDSnapshot (writeAll (initState cfg) rs) uptime).2.map
        Prod.fst) ∧
    List.lookup (effBase cfg.enterpriseOID ++ ".1.0")
      (buildOIDSnapshot (writeAll (initState cfg) rs) uptime).2 =
      some (gaugePDU (effBase cfg.enterpriseOID ++ ".1.0")
        ((writeAll (initState cfg) rs).cache.length % 2 ^ 32)) ∧
    List.lookup (effBase cfg.enterpriseOID ++ ".2.0")
      (buildOIDSnapshot (writeAll (initState cfg) rs) uptime).2 =
      some (gaugePDU (effBase cfg.enterpriseOID ++ ".2.0") (100 % 2 ^ 32)) ∧
    List.lookup (effBase cfg.enterpriseOID ++ ".3.0")
      (buildOIDSnapshot (writeAll (initState cfg) rs) uptime).2 =
      some (gaugePDU (effBase cfg.enterpriseOID ++ ".3.0")
        ((firstSeenL (rs.map siteKeyOf)).length % 2 ^ 32)) ∧
    List.lookup (effBase cfg.enterpriseOID ++ ".4.0")
      (buildOIDSnapshot (writeAll (initState cfg) rs) uptime).2 =
      some (timeTicksPDU (effBase cfg.enterpriseOID ++ ".4.0")
        (uptime % 2 ^ 32)) ∧
    ∀ (i : Nat) (h : i < (firstSeenL (rs.map siteKeyOf)).length), ∃ st,
      List.lookup ((firstSeenL (rs.map siteKeyOf)).get ⟨i, h⟩)
        (writeAll (initState cfg) rs).stats = some st ∧
      List.lookup ((firstSeenL (rs.map siteKeyOf)).get ⟨i, h⟩)
        (writeAll (initState cfg) rs).siteIndex = some ((i : Int) + 1) ∧
      ∀ kv ∈ tenLeaves (effBase cfg.enterpriseOID ++ ".5") ((i : Int) + 1)
          ((firstSeenL (rs.map siteKeyOf)).get ⟨i, h⟩) st,
        List.lookup kv.1
          (buildOIDSnapshot (writeAll (initState cfg) rs) uptime).2 =
          some kv.2 := by
  have inv := storeInv_reached cfg rs
  set s := writeAll (initState cfg) rs with hs
  set names := firstSeenL (rs.map siteKeyOf) with hnames
  set base := effBase cfg.enterpriseOID with hbase
  have hoid : effBase s.enterpriseOID = base := by rw [inv.oidEq]
  have hnd : names.Nodup := firstSeenL_nodup _
  have hstatslen : s.stats.length = names.length := by
    have := congrArg List.length inv.statsKeys
    simpa using this
  have hgetfst : ∀ (j : Nat) (h : j < s.stats.length),
      (s.stats.get ⟨j, h⟩).1 = names.get ⟨j, by omega⟩ := by
    intro j h
    have h2 : j < (List.map Prod.fst s.stats).length := by simpa using h
    have e1 : (List.map Prod.fst s.stats)[j] = (s.stats[j]).1 :=
      List.getElem_map _
    have e2 : (List.map Prod.fst s.stats)[j] = names[j] := by
      simp only [inv.statsKeys]
    simp only [List.get_eq_getElem]
    rw [← e1, e2]
  have hentries : (s.stats.filterMap fun p =>
      (List.lookup p.1 s.siteIndex).map fun idx => (p.1, idx, p.2)) =
      withIdx 1 s.stats := by
    apply entries_eq s.stats s.siteIndex 1
    intro j h
    rw [hgetfst j h, inv.siteIdx]
    exact enumPairs_lookup_get names hnd 1 j (by omega)
  have hsorted : List.insertionSort lessEntry (withIdx 1 s.stats) =
      withIdx 1 s.stats :=
    List.Sorted.insertionSort_eq (withIdx_sorted s.stats 1)
  have hvals : (buildOIDSnapshot s uptime).2.map Prod.fst =
      scalarKeys base ++ idxKeys base 1 names.length := by
    rw [buildOIDSnapshot_values, hentries, hsorted, List.map_append, hoid,
      withIdx_flatMap_keys, hstatslen]
    rfl
  obtain ⟨brest, hb⟩ := effBase_head cfg.enterpriseOID
  have hklt : names.length < 2 ^ 63 := by
    have h1 := firstSeenL_length_le (rs.map siteKeyOf)
    rw [List.length_map] at h1
    rw [hnames]
    omega
  have hpw : List.Pairwise lessOID
      ((buildOIDSnapshot s uptime).2.map Prod.fst) := by
    rw [hvals]
    exact snapKeys_pairwise base brest hb names.length hklt
  have hoids : (buildOIDSnapshot s uptime).1 =
      (buildOIDSnapshot s uptime).2.map Prod.fst := by
    rw [buildOIDSnapshot_oids]
    exact List.Sorted.insertionSort_eq hpw
  have hvnd : ((buildOIDSnapshot s uptime).2.map Prod.fst).Nodup :=
    pairwise_lessOID_nodup hpw
  have hlk : ∀ {k : String} {v : SnmpPDU},
      (k, v) ∈ (buildOIDSnapshot s uptime).2 →
      List.lookup k (buildOIDSnapshot s uptime).2 = some v :=
    fun hm => lookup_of_mem_nodup _ hvnd hm
  have hsidx : s.siteIndex.length = names.length := by
    rw [inv.siteIdx, enumPairs_length]
  refine ⟨hvals, hoids, hpw, ?_, ?_, ?_, ?_, ?_⟩
  · refine hlk ?_
    rw [buildOIDSnapshot_values, hoid]
    exact List.mem_append_left _ (List.mem_cons_self _ _)
  · refine hlk ?_
    rw [buildOIDSnapshot_values, hoid, inv.maxSizeEq]
    refine List.mem_append_left _ ?_
    exact List.mem_cons_of_mem _ (List.mem_cons_self _ _)
  · refine hlk ?_
    rw [buildOIDSnapshot_values, hoid, hsidx]
    refine List.mem_append_left _ ?_
    exact List.mem_cons_of_mem _ (List.mem_cons_of_mem _
      (List.mem_cons_self _ _))
  · refine hlk ?_
    rw [buildOIDSnapshot_values, hoid]
    refine List.mem_append_left _ ?_
    exact List.mem_cons_of_mem _ (List.mem_cons_of_mem _
      (List.mem_cons_of_mem _ (List.mem_cons_self _ _)))
  · intro i h
    have hi : i < s.stats.length := by omega
    refine ⟨(s.stats.get ⟨i, hi⟩).2, ?_, ?_, ?_⟩
    · have := lookup_get_nodup s.stats (inv.statsKeys ▸ hnd) i hi
      rw [hgetfst i hi] at this
      exact this
    · rw [inv.siteIdx]
      have := enumPairs_lookup_get names hnd 1 i (by omega)
      rw [show (1 : Int) + (i : Int) = (i : Int) + 1 by ring] at this
      exact this
    · intro kv hkv
      refine hlk ?_
      rw [buildOIDSnapshot_values, hoid, hentries, hsorted]
      refine List.mem_append_right _ ?_
      refine List.mem_flatMap.mpr ?_
      refine ⟨((s.stats.get ⟨i, hi⟩).1, 1 + (i : Int),
        (s.stats.get ⟨i, hi⟩).2), withIdx_get_mem s.stats 1 i hi, ?_⟩
      show (kv.1, kv.2) ∈ tenLeaves (base ++ ".5") (1 + (i : Int))
        ((s.stats.get ⟨i, hi⟩).1) (s.stats.get ⟨i, hi⟩).2
      rw [hgetfst i hi, show (1 : Int) + (i : Int) = (i : Int) + 1 by ring]
      simpa using hkv

/-- Claim C2: the comparator used to sort the snapshot address list
compares corresponding dotted components as integers (so ".5.2.1" sorts
before ".5.10.1"), and on the address list of any snapshot built from a
reachable store state it is a strict total order: for two distinct
addresses the comparison is never 0, it is antisymmetric, and exactly one
direction compares strictly less. -/
theorem snapshot_order_strict_total (cfg : SNMPConfigM) (uptime : Nat)
    (rs : List TestRec) (hlen : rs.length < 2 ^ 63) :
    compareOIDs ".5.2.1" ".5.10.1" < 0 ∧
    ∀ a ∈ (buildOIDSnapshot (writeAll (initState cfg) rs) uptime).1,
      ∀ b ∈ (buildOIDSnapshot (writeAll (initState cfg) rs) uptime).1,
        a ≠ b →
          compareOIDs a b ≠ 0 ∧
          compareOIDs b a = -compareOIDs a b ∧
          ((compareOIDs a b < 0 ∧ 0 < compareOIDs b a) ∨
            (compareOIDs b a < 0 ∧ 0 < compareOIDs a b)) := by
  obtain ⟨hkeys, hoids, hpw, hrest⟩ := snapshotSpec cfg uptime rs hlen
  refine ⟨by decide, ?_⟩
  intro a ha b hb hab
  rw [hoids] at ha hb
  have hneg := compareOIDs_neg a b
  have htri := pairwise_mem_cases _ hpw a ha b hb hab
  refine ⟨?_, hneg, ?_⟩
  · rcases htri with h | h
    · unfold lessOID at h; omega
    · unfold lessOID at h; omega
  · rcases htri with h | h
    · unfold lessOID at h; exact Or.inl ⟨h, by omega⟩
    · unfold lessOID at h; exact Or.inr ⟨h, by omega⟩

/-- Witness for C2 at a two-site store. -/
theorem snapshot_order_strict_total_witness :
    ([⟨some 1000, "a", "https://a", true, 150⟩,
      ⟨some 1001, "b", "https://b", false, 320⟩] : List TestRec).length <
      2 ^ 63 ∧
    (compareOIDs ".5.2.1" ".5.10.1" < 0 ∧
     ∀ a ∈ (buildOIDSnapshot
         (writeAll (initState ⟨"public", ".1.3.6.1.4.1.55555"⟩)
           [⟨some 1000, "a", "https://a", true, 150⟩,
            ⟨some 1001, "b", "https://b", false, 320⟩]) 7).1,
       ∀ b ∈ (buildOIDSnapshot
           (writeAll (initState ⟨"public", ".1.3.6.1.4.1.55555"⟩)
             [⟨some 1000, "a", "https://a", true, 150⟩,
              ⟨some 1001, "b", "https://b", false, 320⟩]) 7).1,
         a ≠ b →
           compareOIDs a b ≠ 0 ∧
           compareOIDs b a = -compareOIDs a b ∧
           ((compareOIDs a b < 0 ∧ 0 < compareOIDs b a) ∨
             (compareOIDs b a < 0 ∧ 0 < compareOIDs a b))) :=
  ⟨by decide,
   snapshot_order_strict_total ⟨"public", ".1.3.6.1.4.1.55555"⟩ 7
     [⟨some 1000, "a", "https://a", true, 150⟩,
      ⟨some 1001, "b", "https://b", false, 320⟩] (by decide)⟩

/-- Claim C9: from any reachable store state the snapshot binds exactly
the layout addresses under the configured base: the keys are the four
scalars followed by the ten leaves of each indexed site; base.1.0 is the
history length (gauge), base.2.0 the capacity 100 (gauge), base.3.0 the
distinct-site count (gauge), base.4.0 the uptime as time-ticks (seconds
times 100); and for the site of index i+1 the ten leaves hold the name as
text, total/success/failure as counters, last success/failure times as
gauges (0 if never), and last, rounded average, max and min durations as
gauges. -/
theorem snapshot_layout (cfg : SNMPConfigM) (uptime : Nat)
    (rs : List TestRec) (hlen : rs.length < 2 ^ 63) :
    (buildOIDSnapshot (writeAll (initState cfg) rs) uptime).2.map Prod.fst =
      scalarKeys (effBase cfg.enterpriseOID) ++
        idxKeys (effBase cfg.enterpriseOID) 1
          (firstSeenL (rs.map siteKeyOf)).length ∧
    List.lookup (effBase cfg.enterpriseOID ++ ".1.0")
      (buildOIDSnapshot (writeAll (initState cfg) rs) uptime).2 =
      some (gaugePDU (effBase cfg.enterpriseOID ++ ".1.0")
        ((writeAll (initState cfg) rs).cache.length % 2 ^ 32)) ∧
    List.lookup (effBase cfg.enterpriseOID ++ ".2.0")
      (buildOIDSnapshot (writeAll (initState cfg) rs) uptime).2 =
      some (gaugePDU (effBase cfg.enterpriseOID ++ ".2.0") (100 % 2 ^ 32)) ∧
    List.lookup (effBase cfg.enterpriseOID ++ ".3.0")
      (buildOIDSnapshot (writeAll (initState cfg) rs) uptime).2 =
      some (gaugePDU (effBase cfg.enterpriseOID ++ ".3.0")
        ((firstSeenL (rs.map siteKeyOf)).length % 2 ^ 32)) ∧
    List.lookup (effBase cfg.enterpriseOID ++ ".4.0")
      (buildOIDSnapshot (writeAll (initState cfg) rs) uptime).2 =
      some (timeTicksPDU (effBase cfg.enterpriseOID ++ ".4.0")
        (uptime % 2 ^ 32)) ∧
    ∀ (i : Nat) (h : i < (firstSeenL (rs.map siteKeyOf)).length), ∃ st,
      List.lookup ((firstSeenL (rs.map siteKeyOf)).get ⟨i, h⟩)
        (writeAll (initState cfg) rs).stats = some st ∧
      List.lookup ((firstSeenL (rs.map siteKeyOf)).get ⟨i, h⟩)
        (writeAll (initState cfg) rs).siteIndex = some ((i : Int) + 1) ∧
      List.lookup (effBase cfg.enterpriseOID ++ ".5" ++ "." ++
          intStr ((i : Int) + 1) ++ ".1")
        (buildOIDSnapshot (writeAll (initState cfg) rs) uptime).2 =
        some (octetStringPDU (effBase cfg.enterpriseOID ++ ".5" ++ "." ++
          intStr ((i : Int) + 1) ++ ".1")
          ((firstSeenL (rs.map siteKeyOf)).get ⟨i, h⟩)) ∧
      List.lookup (effBase cfg.enterpriseOID ++ ".5" ++ "." ++
          intStr ((i : Int) + 1) ++ ".2")
        (buildOIDSnapshot (writeAll (initState cfg) rs) uptime).2 =
        some (counterPDU (effBase cfg.enterpriseOID ++ ".5" ++ "." ++
          intStr ((i : Int) + 1) ++ ".2") (u32ofInt st.totalTests)) ∧
      List.lookup (effBase cfg.enterpriseOID ++ ".5" ++ "." ++
          intStr ((i : Int) + 1) ++ ".3")
        (buildOIDSnapshot (writeAll (initState cfg) rs) uptime).2 =
        some (counterPDU (effBase cfg.enterpriseOID ++ ".5" ++ "." ++
          intStr ((i : Int) + 1) ++ ".3") (u32ofInt st.successfulTests)) ∧
      List.lookup (effBase cfg.enterpriseOID ++ ".5" ++ "." ++
          intStr ((i : Int) + 1) ++ ".4")
        (buildOIDSnapshot (writeAll (initState cfg) rs) uptime).2 =
        some (counterPDU (effBase cfg.enterpriseOID ++ ".5" ++ "." ++
          intStr ((i : Int) + 1) ++ ".4") (u32ofInt st.failedTests)) ∧
      List.lookup (effBase cfg.enterpriseOID ++ ".5" ++ "." ++
          intStr ((i : Int) + 1) ++ ".5")
        (buildOIDSnapshot (writeAll (initState cfg) rs) uptime).2 =
        some (gaugePDU (effBase cfg.enterpriseOID ++ ".5" ++ "." ++
          intStr ((i : Int) + 1) ++ ".5")
          (match st.lastSuccessTime with
           | some u => u32ofInt u
           | none => 0)) ∧
      List.lookup (effBase cfg.enterpriseOID ++ ".5" ++ "." ++
          intStr ((i : Int) + 1) ++ ".6")
        (buildOIDSnapshot (writeAll (initState cfg) rs) uptime).2 =
        some (gaugePDU (effBase cfg.enterpriseOID ++ ".5" ++ "." ++
          intStr ((i : Int) + 1) ++ ".6")
          (match st.lastFailureTime with
           | some u => u32ofInt u
           | none => 0)) ∧
      List.lookup (effBase cfg.enterpriseOID ++ ".5" ++ "." ++
          intStr ((i : Int) + 1) ++ ".7")
        (buildOIDSnapshot (writeAll (initState cfg) rs) uptime).2 =
        some (gaugePDU (effBase cfg.enterpriseOID ++ ".5" ++ "." ++
          intStr ((i : Int) + 1) ++ ".7") (u32ofInt st.lastDurationMs)) ∧
      List.lookup (effBase cfg.enterpriseOID ++ ".5" ++ "." ++
          intStr ((i : Int) + 1) ++ ".8")
        (buildOIDSnapshot (writeAll (initState cfg) rs) uptime).2 =
        some (gaugePDU (effBase cfg.enterpriseOID ++ ".5" ++ "." ++
          intStr ((i : Int) + 1) ++ ".8")
          (u32ofInt (goRound st.avgDurationMs))) ∧
      List.lookup (effBase cfg.enterpriseOID ++ ".5" ++ "." ++
          intStr ((i : Int) + 1) ++ ".9")
        (buildOIDSnapshot (writeAll (initState cfg) rs) uptime).2 =
        some (gaugePDU (effBase cfg.enterpriseOID ++ ".5" ++ "." ++
          intStr ((i : Int) + 1) ++ ".9") (u32ofInt st.maxDurationMs)) ∧
      List.lookup (effBase cfg.enterpriseOID ++ ".5" ++ "." ++
          intStr ((i : Int) + 1) ++ ".10")
        (buildOIDSnapshot (writeAll (initState cfg) rs) uptime).2 =
        some (gaugePDU (effBase cfg.enterpriseOID ++ ".5" ++ "." ++
          intStr ((i : Int) + 1) ++ ".10") (u32ofInt st.minDurationMs)) := by
  obtain ⟨hkeys, hoids, hpw, h1, h2, h3, h4, hsite⟩ :=
    snapshotSpec cfg uptime rs hlen
  refine ⟨hkeys, h1, h2, h3, h4, ?_⟩
  intro i h
  obtain ⟨st, hst, hidx, hten⟩ := hsite i h
  refine ⟨st, hst, hidx, ?_, ?_, ?_, ?_, ?_, ?_, ?_, ?_, ?_, ?_⟩
  · exact hten (effBase cfg.enterpriseOID ++ ".5" ++ "." ++
        intStr ((i : Int) + 1) ++ ".1",
      octetStringPDU (effBase cfg.enterpriseOID ++ ".5" ++ "." ++
        intStr ((i : Int) + 1) ++ ".1")
        ((firstSeenL (rs.map siteKeyOf)).get ⟨i, h⟩)) (by simp [tenLeaves])
  · exact hten (effBase cfg.enterpriseOID ++ ".5" ++ "." ++
        intStr ((i : Int) + 1) ++ ".2",
      counterPDU (effBase cfg.enterpriseOID ++ ".5" ++ "." ++
        intStr ((i : Int) + 1) ++ ".2") (u32ofInt st.totalTests))
      (by simp [tenLeaves])
  · exact hten (effBase cfg.enterpriseOID ++ ".5" ++ "." ++
        intStr ((i : Int) + 1) ++ ".3",
      counterPDU (effBase cfg.enterpriseOID ++ ".5" ++ "." ++
        intStr ((i : Int) + 1) ++ ".3") (u32ofInt st.successfulTests))
      (by simp [tenLeaves])
  · exact hten (effBase cfg.enterpriseOID ++ ".5" ++ "." ++
        intStr ((i : Int) + 1) ++ ".4",
      counterPDU (effBase cfg.enterpriseOID ++ ".5" ++ "." ++
        intStr ((i : Int) + 1) ++ ".4") (u32ofInt st.failedTests))
      (by simp [tenLeaves])
  · exact hten (effBase cfg.enterpriseOID ++ ".5" ++ "." ++
        intStr ((i : Int) + 1) ++ ".5",
      gaugePDU (effBase cfg.enterpriseOID ++ ".5" ++ "." ++
        intStr ((i : Int) + 1) ++ ".5")
        (match st.lastSuccessTime with
         | some u => u32ofInt u
         | none => 0)) (by simp [tenLeaves])
  · exact hten (effBase cfg.enterpriseOID ++ ".5" ++ "." ++
        intStr ((i : Int) + 1) ++ ".6",
      gaugePDU (effBase cfg.enterpriseOID ++ ".5" ++ "." ++
        intStr ((i : Int) + 1) ++ ".6")
        (match st.lastFailureTime with
         | some u => u32ofInt u
         | none => 0)) (by simp [tenLeaves])
  · exact hten (effBase cfg.enterpriseOID ++ ".5" ++ "." ++
        intStr ((i : Int) + 1) ++ ".7",
      gaugePDU (effBase cfg.enterpriseOID ++ ".5" ++ "." ++
        intStr ((i : Int) + 1) ++ ".7") (u32ofInt st.lastDurationMs))
      (by simp [tenLeaves])
  · exact hten (effBase cfg.enterpriseOID ++ ".5" ++ "." ++
        intStr ((i : Int) + 1) ++ ".8",
      gaugePDU (effBase cfg.enterpriseOID ++ ".5" ++ "." ++
        intStr ((i : Int) + 1) ++ ".8")
        (u32ofInt (goRound st.avgDurationMs))) (by simp [tenLeaves])
  · exact hten (effBase cfg.enterpriseOID ++ ".5" ++ "." ++
        intStr ((i : Int) + 1) ++ ".9",
      gaugePDU (effBase cfg.enterpriseOID ++ ".5" ++ "." ++
        intStr ((i : Int) + 1) ++ ".9") (u32ofInt st.maxDurationMs))
      (by simp [tenLeaves])
  · exact hten (effBase cfg.enterpriseOID ++ ".5" ++ "." ++
        intStr ((i : Int) + 1) ++ ".10",
      gaugePDU (effBase cfg.enterpriseOID ++ ".5" ++ "." ++
        intStr ((i : Int) + 1) ++ ".10") (u32ofInt st.minDurationMs))
      (by simp [tenLeaves])

/-- Witness for C9 at a one-site store. -/
theorem snapshot_layout_witness :
    ([⟨some 1000, "a", "https://a", true, 150⟩] : List TestRec).length < 2 ^ 63 ∧
    ((buildOIDSnapshot (writeAll (initState ⟨"public", ".1.3.6.1.4.1.55555"⟩) [⟨some 1000, "a", "https://a", true, 150⟩]) 7).2.map Prod.fst =
      scalarKeys (effBase (⟨"public", ".1.3.6.1.4.1.55555"⟩ : SNMPConfigM).enterpriseOID) ++
        idxKeys (effBase (⟨"public", ".1.3.6.1.4.1.55555"⟩ : SNMPConfigM).enterpriseOID) 1
          (firstSeenL ((([⟨some 1000, "a", "https://a", true, 150⟩] : List TestRec).map siteKeyOf))).length ∧
    List.lookup (effBase (⟨"public", ".1.3.6.1.4.1.55555"⟩ : SNMPConfigM).enterpriseOID ++ ".1.0")
      (buildOIDSnapshot (writeAll (initState ⟨"public", ".1.3.6.1.4.1.55555"⟩) [⟨some 1000, "a", "https://a", true, 150⟩]) 7).2 =
      some (gaugePDU (effBase (⟨"public", ".1.3.6.1.4.1.55555"⟩ : SNMPConfigM).enterpriseOID ++ ".1.0")
        ((writeAll (initState ⟨"public", ".1.3.6.1.4.1.55555"⟩) [⟨some 1000, "a", "https://a", true, 150⟩]).cache.length % 2 ^ 32)) ∧
    List.lookup (effBase (⟨"public", ".1.3.6.1.4.1.55555"⟩ : SNMPConfigM).enterpriseOID ++ ".2.0")
      (buildOIDSnapshot (writeAll (initState ⟨"public", ".1.3.6.1.4.1.55555"⟩) [⟨some 1000, "a", "https://a", true, 150⟩]) 7).2 =
      some (gaugePDU (effBase (⟨"public", ".1.3.6.1.4.1.55555"⟩ : SNMPConfigM).enterpriseOID ++ ".2.0") (100 % 2 ^ 32)) ∧
    List.lookup (effBase (⟨"public", ".1.3.6.1.4.1.55555"⟩ : SNMPConfigM).enterpriseOID ++ ".3.0")
      (buildOIDSnapshot (writeAll (initState ⟨"public", ".1.3.6.1.4.1.55555"⟩) [⟨some 1000, "a", "https://a", true, 150⟩]) 7).2 =
      some (gaugePDU (effBase (⟨"public", ".1.3.6.1.4.1.55555"⟩ : SNMPConfigM).enterpriseOID ++ ".3.0")
        ((firstSeenL ((([⟨some 1000, "a", "https://a", true, 150⟩] : List TestRec).map siteKeyOf))).length % 2 ^ 32)) ∧
    List.lookup (effBase (⟨"public", ".1.3.6.1.4.1.55555"⟩ : SNMPConfigM).enterpriseOID ++ ".4.0")
      (buildOIDSnapshot (writeAll (initState ⟨"public", ".1.3.6.1.4.1.55555"⟩) [⟨some 1000, "a", "https://a", true, 150⟩]) 7).2 =
      some (timeTicksPDU (effBase (⟨"public", ".1.3.6.1.4.1.55555"⟩ : SNMPConfigM).enterpriseOID ++ ".4.0")
        (7 % 2 ^ 32)) ∧
    ∀ (i : Nat) (h : i < (firstSeenL ((([⟨some 1000, "a", "https://a", true, 150⟩] : List TestRec).map siteKeyOf))).length), ∃ st,
      List.lookup ((firstSeenL ((([⟨some 1000, "a", "https://a", true, 150⟩] : List TestRec).map siteKeyOf))).get ⟨i, h⟩)
        (writeAll (initState ⟨"public", ".1.3.6.1.4.1.55555"⟩) [⟨some 1000, "a", "https://a", true, 150⟩]).stats = some st ∧
      List.lookup ((firstSeenL ((([⟨some 1000, "a", "https://a", true, 150⟩] : List TestRec).map siteKeyOf))).get ⟨i, h⟩)
        (writeAll (initState ⟨"public", ".1.3.6.1.4.1.55555"⟩) [⟨some 1000, "a", "https://a", true, 150⟩]).siteIndex = some ((i : Int) + 1) ∧
      List.lookup (effBase (⟨"public", ".1.3.6.1.4.1.55555"⟩ : SNMPConfigM).enterpriseOID ++ ".5" ++ "." ++
          intStr ((i : Int) + 1) ++ ".1")
        (buildOIDSnapshot (writeAll (initState ⟨"public", ".1.3.6.1.4.1.55555"⟩) [⟨some 1000, "a", "https://a", true, 150⟩]) 7).2 =
        some (octetStringPDU (effBase (⟨"public", ".1.3.6.1.4.1.55555"⟩ : SNMPConfigM).enterpriseOID ++ ".5" ++ "." ++
          intStr ((i : Int) + 1) ++ ".1")
          ((firstSeenL ((([⟨some 1000, "a", "https://a", true, 150⟩] : List TestRec).map siteKeyOf))).get ⟨i, h⟩)) ∧
      List.lookup (effBase (⟨"public", ".1.3.6.1.4.1.55555"⟩ : SNMPConfigM).enterpriseOID ++ ".5" ++ "." ++
          intStr ((i : Int) + 1) ++ ".2")
        (buildOIDSnapshot (writeAll (initState ⟨"public", ".1.3.6.1.4.1.55555"⟩) [⟨some 1000, "a", "https://a", true, 150⟩]) 7).2 =
        some (counterPDU (effBase (⟨"public", ".1.3.6.1.4.1.55555"⟩ : SNMPConfigM).enterpriseOID ++ ".5" ++ "." ++
          intStr ((i : Int) + 1) ++ ".2") (u32ofInt st.totalTests)) ∧
      List.lookup (effBase (⟨"public", ".1.3.6.1.4.1.55555"⟩ : SNMPConfigM).enterpriseOID ++ ".5" ++ "." ++
          intStr ((i : Int) + 1) ++ ".3")
        (buildOIDSnapshot (writeAll (initState ⟨"public", ".1.3.6.1.4.1.55555"⟩) [⟨some 1000, "a", "https://a", true, 150⟩]) 7).2 =
        some (counterPDU (effBase (⟨"public", ".1.3.6.1.4.1.55555"⟩ : SNMPConfigM).enterpriseOID ++ ".5" ++ "." ++
          intStr ((i : Int) + 1) ++ ".3") (u32ofInt st.successfulTests)) ∧
      List.lookup (effBase (⟨"public", ".1.3.6.1.4.1.55555"⟩ : SNMPConfigM).enterpriseOID ++ ".5" ++ "." ++
          intStr ((i : Int) + 1) ++ ".4")
        (buildOIDSnapshot (writeAll (initState ⟨"public", ".1.3.6.1.4.1.55555"⟩) [⟨some 1000, "a", "https://a", true, 150⟩]) 7).2 =
        some (counterPDU (effBase (⟨"public", ".1.3.6.1.4.1.55555"⟩ : SNMPConfigM).enterpriseOID ++ ".5" ++ "." ++
          intStr ((i : Int) + 1) ++ ".4") (u32ofInt st.failedTests)) ∧
      List.lookup (effBase (⟨"public", ".1.3.6.1.4.1.55555"⟩ : SNMPConfigM).enterpriseOID ++ ".5" ++ "." ++
          intStr ((i : Int) + 1) ++ ".5")
        (buildOIDSnapshot (writeAll (initState ⟨"public", ".1.3.6.1.4.1.55555"⟩) [⟨some 1000, "a", "https://a", true, 150⟩]) 7).2 =
        some (gaugePDU (effBase (⟨"public", ".1.3.6.1.4.1.55555"⟩ : SNMPConfigM).enterpriseOID ++ ".5" ++ "." ++
          intStr ((i : Int) + 1) ++ ".5")
          (match st.lastSuccessTime with
           | some u => u32ofInt u
           | none => 0)) ∧
      List.lookup (effBase (⟨"public", ".1.3.6.1.4.1.55555"⟩ : SNMPConfigM).enterpriseOID ++ ".5" ++ "." ++
          intStr ((i : Int) + 1) ++ ".6")
        (buildOIDSnapshot (writeAll (initState ⟨"public", ".1.3.6.1.4.1.55555"⟩) [⟨some 1000, "a", "https://a", true, 150⟩]) 7).2 =
        some (gaugePDU (effBase (⟨"public", ".1.3.6.1.4.1.55555"⟩ : SNMPConfigM).enterpriseOID ++ ".5" ++ "." ++
          intStr ((i : Int) + 1) ++ ".6")
          (match st.lastFailureTime with
           | some u => u32ofInt u
           | none => 0)) ∧
      List.lookup (effBase (⟨"public", ".1.3.6.1.4.1.55555"⟩ : SNMPConfigM).enterpriseOID ++ ".5" ++ "." ++
          intStr ((i : Int) + 1) ++ ".7")
        (buildOIDSnapshot (writeAll (initState ⟨"public", ".1.3.6.1.4.1.55555"⟩) [⟨some 1000, "a", "https://a", true, 150⟩]) 7).2 =
        some (gaugePDU (effBase (⟨"public", ".1.3.6.1.4.1.55555"⟩ : SNMPConfigM).enterpriseOID ++ ".5" ++ "." ++
          intStr ((i : Int) + 1) ++ ".7") (u32ofInt st.lastDurationMs)) ∧
      List.lookup (effBase (⟨"public", ".1.3.6.1.4.1.55555"⟩ : SNMPConfigM).enterpriseOID ++ ".5" ++ "." ++
          intStr ((i : Int) + 1) ++ ".8")
        (buildOIDSnapshot (writeAll (initState ⟨"public", ".1.3.6.1.4.1.55555"⟩) [⟨some 1000, "a", "https://a", true, 150⟩]) 7).2 =
        some (gaugePDU (effBase (⟨"public", ".1.3.6.1.4.1.55555"⟩ : SNMPConfigM).enterpriseOID ++ ".5" ++ "." ++
          intStr ((i : Int) + 1) ++ ".8")
          (u32ofInt (goRound st.avgDurationMs))) ∧
      List.lookup (effBase (⟨"public", ".1.3.6.1.4.1.55555"⟩ : SNMPConfigM).enterpriseOID ++ ".5" ++ "." ++
          intStr ((i : Int) + 1) ++ ".9")
        (buildOIDSnapshot (writeAll (initState ⟨"public", ".1.3.6.1.4.1.55555"⟩) [⟨some 1000, "a", "https://a", true, 150⟩]) 7).2 =
        some (gaugePDU (effBase (⟨"public", ".1.3.6.1.4.1.55555"⟩ : SNMPConfigM).enterpriseOID ++ ".5" ++ "." ++
          intStr ((i : Int) + 1) ++ ".9") (u32ofInt st.maxDurationMs)) ∧
      List.lookup (effBase (⟨"public", ".1.3.6.1.4.1.55555"⟩ : SNMPConfigM).enterpriseOID ++ ".5" ++ "." ++
          intStr ((i : Int) + 1) ++ ".10")
        (buildOIDSnapshot (writeAll (initState ⟨"public", ".1.3.6.1.4.1.55555"⟩) [⟨some 1000, "a", "https://a", true, 150⟩]) 7).2 =
        some (gaugePDU (effBase (⟨"public", ".1.3.6.1.4.1.55555"⟩ : SNMPConfigM).enterpriseOID ++ ".5" ++ "." ++
          intStr ((i : Int) + 1) ++ ".10") (u32ofInt st.minDurationMs))) :=
  ⟨by decide,
   snapshot_layout ⟨"public", ".1.3.6.1.4.1.55555"⟩ 7
     [⟨some 1000, "a", "https://a", true, 150⟩] (by decide)⟩

/-- Claim C10: a record carrying an empty site name is identified by its
URL: the URL is the key under which the aggregate and the site index
entry are created and updated, the URL is the text exposed at the
site-name leaf of the snapshot, and two empty-name records with the same
URL update one single aggregate. -/
theorem emptyName_uses_url (cfg : SNMPConfigM) (uptime : Nat)
    (r1 r2 : TestRec) (hn1 : r1.siteName = "") (hn2 : r2.siteName = "")
    (hurl : r2.siteURL = r1.siteURL) :
    siteKeyOf r1 = r1.siteURL ∧
    siteKeyOf r2 = r1.siteURL ∧
    (writeAll (initState cfg) [r1, r2]).siteIndex = [(r1.siteURL, 1)] ∧
    (writeAll (initState cfg) [r1, r2]).stats.map Prod.fst = [r1.siteURL] ∧
    (∃ st, List.lookup r1.siteURL
        (writeAll (initState cfg) [r1, r2]).stats = some st ∧
      st.totalTests = 2) ∧
    List.lookup
      (effBase cfg.enterpriseOID ++ ".5" ++ "." ++ intStr 1 ++ ".1")
      (buildOIDSnapshot (writeAll (initState cfg) [r1, r2]) uptime).2 =
      some (octetStringPDU
        (effBase cfg.enterpriseOID ++ ".5" ++ "." ++ intStr 1 ++ ".1")
        r1.siteURL) := by
  have hk1 : siteKeyOf r1 = r1.siteURL := by simp [siteKeyOf, hn1]
  have hk2 : siteKeyOf r2 = r1.siteURL := by simp [siteKeyOf, hn2, hurl]
  have hnames : firstSeenL ([r1, r2].map siteKeyOf) = [r1.siteURL] := by
    simp [firstSeenL, firstSeenAux, hk1, hk2]
  have inv := storeInv_reached cfg [r1, r2]
  have hlen : ([r1, r2] : List TestRec).length < 2 ^ 63 := by norm_num
  obtain ⟨_, _, _, _, _, _, _, hsite⟩ := snapshotSpec cfg uptime [r1, r2] hlen
  have h0 : 0 < (firstSeenL ([r1, r2].map siteKeyOf)).length := by
    rw [hnames]; simp
  obtain ⟨st, hst, hidx, hten⟩ := hsite 0 h0
  have hget : (firstSeenL ([r1, r2].map siteKeyOf)).get ⟨0, h0⟩ =
      r1.siteURL := by
    simp only [List.get_eq_getElem]
    simp [hk1, hk2, firstSeenL, firstSeenAux]
  rw [hget] at hst hten
  have hone : ((0 : Nat) : Int) + 1 = 1 := by norm_num
  rw [hone] at hten
  refine ⟨hk1, hk2, ?_, ?_, ⟨st, hst, ?_⟩, ?_⟩
  · rw [inv.siteIdx, hnames]
    simp [enumPairs]
  · rw [inv.statsKeys, hnames]
  · have := (inv.statsSpec r1.siteURL st hst).1
    rw [this]
    have hdur : siteDurations [r1, r2] r1.siteURL =
        [r1.totalDurationMs, r2.totalDurationMs] := by
      simp [siteDurations, hk1, hk2]
    rw [hdur]
    norm_num
  · exact hten
      (effBase cfg.enterpriseOID ++ ".5" ++ "." ++ intStr 1 ++ ".1",
       octetStringPDU
         (effBase cfg.enterpriseOID ++ ".5" ++ "." ++ intStr 1 ++ ".1")
         r1.siteURL) (by simp [tenLeaves])

/-- Witness for C10: two empty-name records sharing one URL. -/
theorem emptyName_uses_url_witness :
    (⟨some 1000, "", "https://x", true, 150⟩ : TestRec).siteName = "" ∧
    (⟨some 1001, "", "https://x", false, 50⟩ : TestRec).siteName = "" ∧
    (⟨some 1001, "", "https://x", false, 50⟩ : TestRec).siteURL =
      (⟨some 1000, "", "https://x", true, 150⟩ : TestRec).siteURL ∧
    (siteKeyOf ⟨some 1000, "", "https://x", true, 150⟩ = "https://x" ∧
     siteKeyOf ⟨some 1001, "", "https://x", false, 50⟩ = "https://x" ∧
     (writeAll (initState ⟨"public", ".1.3.6.1.4.1.55555"⟩)
       [⟨some 1000, "", "https://x", true, 150⟩,
        ⟨some 1001, "", "https://x", false, 50⟩]).siteIndex =
       [("https://x", 1)] ∧
     (writeAll (initState ⟨"public", ".1.3.6.1.4.1.55555"⟩)
       [⟨some 1000, "", "https://x", true, 150⟩,
        ⟨some 1001, "", "https://x", false, 50⟩]).stats.map Prod.fst =
       ["https://x"] ∧
     (∃ st, List.lookup "https://x"
         (writeAll (initState ⟨"public", ".1.3.6.1.4.1.55555"⟩)
           [⟨some 1000, "", "https://x", true, 150⟩,
            ⟨some 1001, "", "https://x", false, 50⟩]).stats = some st ∧
       st.totalTests = 2) ∧
     List.lookup
       (effBase (⟨"public", ".1.3.6.1.4.1.55555"⟩ :
           SNMPConfigM).enterpriseOID ++ ".5" ++ "." ++ intStr 1 ++ ".1")
       (buildOIDSnapshot
         (writeAll (initState ⟨"public", ".1.3.6.1.4.1.55555"⟩)
           [⟨some 1000, "", "https://x", true, 150⟩,
            ⟨some 1001, "", "https://x", false, 50⟩]) 7).2 =
       some (octetStringPDU
         (effBase (⟨"public", ".1.3.6.1.4.1.55555"⟩ :
             SNMPConfigM).enterpriseOID ++ ".5" ++ "." ++ intStr 1 ++ ".1")
         "https://x")) :=
  ⟨rfl, rfl, rfl,
   emptyName_uses_url ⟨"public", ".1.3.6.1.4.1.55555"⟩ 7
     ⟨some 1000, "", "https://x", true, 150⟩
     ⟨some 1001, "", "https://x", false, 50⟩ rfl rfl rfl⟩
